import Mathlib

set_option maxHeartbeats 1000000
set_option linter.unusedVariables false

/-! # Verification of the feedforward-network simulator

Shallow embedding of the network model, projection engine, scene builder
and turbo training loop of `src/components/NetworkGame.tsx`.

Numeric model.  JavaScript numbers are modelled by `JNum`: an exact
rational value (every finite IEEE double is a rational) or one of the
non-finite values `inf`, `ninf`, `nan`.  Finite arithmetic is exact (the
idealisation drops overflow); the non-finite values propagate with the
IEEE semantics that the `isFinite` guards in the source react to.
Out-of-bounds array reads, which would throw or yield `undefined` in
JavaScript, are modelled by default values (`nan` for scalars, `[]` for
arrays); theorems that depend on indexing are stated for well-formed
networks, where no out-of-bounds access happens.  The transcendental
activation formulas of the registry are stated over `ℝ` (see
`ACTIVATION_FUNCTIONS`); the network routines are parametric in the
activation table, exactly as the source reads the global table. -/

/-- Kernel-reducible rational addition (`Rat.add` is `@[irreducible]`,
which would block evaluating concrete networks inside proofs);
`qadd_eq` identifies it with the field addition of `ℚ`. -/
def qadd (a b : ℚ) : ℚ := mkRat (a.num * b.den + b.num * a.den) (a.den * b.den)

/-- Kernel-reducible rational multiplication; `qmul_eq` identifies it
with the field multiplication of `ℚ`. -/
def qmul (a b : ℚ) : ℚ := mkRat (a.num * b.num) (a.den * b.den)

inductive JNum where
  | fin (q : ℚ)
  | inf
  | ninf
  | nan
deriving DecidableEq

namespace JNum

/-- JavaScript `+` on numbers. -/
def add : JNum → JNum → JNum
  | fin a, fin b => fin (qadd a b)
  | fin _, inf => inf
  | inf, fin _ => inf
  | inf, inf => inf
  | fin _, ninf => ninf
  | ninf, fin _ => ninf
  | ninf, ninf => ninf
  | _, _ => nan

instance : Add JNum := ⟨add⟩

/-- JavaScript unary minus. -/
def neg : JNum → JNum
  | fin a => fin (-a)
  | inf => ninf
  | ninf => inf
  | nan => nan

instance : Neg JNum := ⟨neg⟩

/-- JavaScript `*` on numbers. -/
def mul : JNum → JNum → JNum
  | fin a, fin b => fin (qmul a b)
  | fin a, inf => if 0 < a then inf else if a < 0 then ninf else nan
  | inf, fin a => if 0 < a then inf else if a < 0 then ninf else nan
  | fin a, ninf => if 0 < a then ninf else if a < 0 then inf else nan
  | ninf, fin a => if 0 < a then ninf else if a < 0 then inf else nan
  | inf, inf => inf
  | inf, ninf => ninf
  | ninf, inf => ninf
  | ninf, ninf => inf
  | _, _ => nan

instance : Mul JNum := ⟨mul⟩

/-- JavaScript `-` on numbers (IEEE: `a - b = a + (-b)`). -/
def sub (a b : JNum) : JNum := a + (-b)

instance : Sub JNum := ⟨sub⟩

/-- JavaScript `<` (false whenever either operand is NaN). -/
def lt : JNum → JNum → Bool
  | fin a, fin b => decide (a < b)
  | fin _, inf => true
  | ninf, fin _ => true
  | ninf, inf => true
  | _, _ => false

/-- JavaScript `>`. -/
def gt (a b : JNum) : Bool := lt b a

/-- `Math.min` (returns NaN when either argument is NaN). -/
def jmin : JNum → JNum → JNum
  | nan, _ => nan
  | _, nan => nan
  | a, b => if lt a b then a else b

/-- `Math.max` (returns NaN when either argument is NaN). -/
def jmax : JNum → JNum → JNum
  | nan, _ => nan
  | _, nan => nan
  | a, b => if lt b a then a else b

/-- JavaScript's global `isFinite` on a number. -/
def isFinite : JNum → Bool
  | fin _ => true
  | _ => false

/-- `Math.max(-1, Math.min(1, x))`: the per-update clip used by `train`. -/
def clamp (x : JNum) : JNum := jmax (fin (-1)) (jmin (fin 1) x)

/-- `if (!isFinite(sum)) sum = 0`: the guard used in `forward` and in the
backward error sums. -/
def sanitize (x : JNum) : JNum := if x.isFinite then x else fin 0

/-- JavaScript `x || 0` on a number (`0` and NaN are falsy; an absent
array entry, read as `undefined`, is modelled as NaN and is also falsy). -/
def orZero (x : JNum) : JNum := if x = fin 0 ∨ x = nan then fin 0 else x

end JNum

/-! ## Activation keys and tables

`ACTIVATION_FUNCTIONS` in the source is a global record keyed by the five
activation names; the network routines look functions up in it.  The
network model below takes the table as an explicit parameter (of
rational-valued entries); the real-valued registry itself is defined
later for the registry claims. -/

inductive ActivationKey where
  | SIGMOID
  | TANH
  | RELU
  | LEAKY_RELU
  | ELU
deriving DecidableEq

/-- A `(func, deriv)` activation entry over `JNum` (the `name`/`color`
presentation fields of the source are irrelevant to the computation and
omitted). -/
structure ActivationDefQ where
  func : JNum → JNum
  deriv : JNum → JNum

/-- The `RELU` entry of `ACTIVATION_FUNCTIONS`, exactly representable over
rationals: `func: x => Math.max(0, x)`, `deriv: y => y > 0 ? 1 : 0.05`. -/
def qReLU : ActivationDefQ :=
  ⟨fun x => JNum.jmax (JNum.fin 0) x,
   fun y => if JNum.gt y (JNum.fin 0) then JNum.fin 1 else JNum.fin (mkRat 1 20)⟩

/-- The `LEAKY_RELU` entry: `func: x => Math.max(0.01*x, x)`,
`deriv: y => y > 0 ? 1 : 0.01`. -/
def qLeakyReLU : ActivationDefQ :=
  ⟨fun x => JNum.jmax (JNum.fin (mkRat 1 100) * x) x,
   fun y => if JNum.gt y (JNum.fin 0) then JNum.fin 1 else JNum.fin (mkRat 1 100)⟩

/-- A rational-valued activation table agreeing with the source registry
on the two entries that are exactly representable over `ℚ`; the
transcendental entries cannot carry their exact formulas here, so concrete
networks below only ever assign `RELU` or `LEAKY_RELU`. -/
def qTable : ActivationKey → ActivationDefQ
  | .RELU => qReLU
  | .LEAKY_RELU => qLeakyReLU
  | _ => qReLU

/-! ## The network model (`class SimpleNetwork`) -/

/-- The fields of `class SimpleNetwork` (source lines 753-760). -/
structure SimpleNetwork where
  layerSizes : List ℕ
  activations : List ActivationKey
  weights : List (List (List JNum))
  weightDeltas : List (List (List JNum))
  biases : List (List JNum)
  values : List (List JNum)
  preActivations : List (List JNum)
deriving DecidableEq

namespace SimpleNetwork

/-- The constructor (source lines 762-794).  `Math.random()` draws are
supplied positionally by `randW`/`randB`, and the double-precision
`Math.sqrt` (whose values are rationals) by `sqrtFn`; the loop pushes one
weight matrix, delta matrix and bias vector per layer transition
`t = i - 1`, and a zero value/pre-activation row per layer. -/
def construct (sqrtFn : ℕ → ℚ) (randW : ℕ → ℕ → ℕ → ℚ) (randB : ℕ → ℕ → ℚ)
    (layerSizes : List ℕ) (activations : List ActivationKey) : SimpleNetwork :=
  { layerSizes := layerSizes
    activations := activations
    weights := (List.range (layerSizes.length - 1)).map fun t =>
      (List.range (layerSizes.getD t 0)).map fun j =>
        (List.range (layerSizes.getD (t + 1) 0)).map fun k =>
          JNum.fin ((randW (t + 1) j k * 2 - 1) * (1 / sqrtFn (layerSizes.getD t 0)))
    weightDeltas := (List.range (layerSizes.length - 1)).map fun t =>
      List.replicate (layerSizes.getD t 0)
        (List.replicate (layerSizes.getD (t + 1) 0) (JNum.fin 0))
    biases := (List.range (layerSizes.length - 1)).map fun t =>
      (List.range (layerSizes.getD (t + 1) 0)).map fun j =>
        JNum.fin (1/100 + randB (t + 1) j * (1/5))
    values := layerSizes.map fun s => List.replicate s (JNum.fin 0)
    preActivations := layerSizes.map fun s => List.replicate s (JNum.fin 0) }

/-- `setActivations` (source line 796). -/
def setActivations (net : SimpleNetwork) (newActivations : List ActivationKey) :
    SimpleNetwork :=
  { net with activations := newActivations }

/-- `setLayerBias` (source lines 797-802): guarded by
`biasIdx >= 0 && biasIdx < this.biases.length`, then `fill(value)` on the
selected bias vector.  The layer index is an arbitrary integer, as in
JavaScript. -/
def setLayerBias (net : SimpleNetwork) (layerIdx : ℤ) (value : JNum) :
    SimpleNetwork :=
  let biasIdx := layerIdx - 1
  if 0 ≤ biasIdx ∧ biasIdx < (net.biases.length : ℤ) then
    let filled := List.replicate ((net.biases.getD biasIdx.toNat []).length) value
    { net with biases := net.biases.set biasIdx.toNat filled }
  else net

end SimpleNetwork

/-- One pass of the layer loop body of `forward` (source lines 816-823):
for each unit `j` of the next layer (`j < this.layerSizes[layerIndex]`),
sum `prevValues[k] * currentWeights[k][j]` over `k < prevValues.length`,
add the bias, replace a non-finite sum by `0`, and activate. -/
def layerForward (tbl : ActivationKey → ActivationDefQ) (key : ActivationKey)
    (size1 : ℕ) (w : List (List JNum)) (b : List JNum) (prev : List JNum) :
    List JNum × List JNum :=
  let pres := (List.range size1).map fun j =>
    JNum.sanitize ((List.range prev.length).foldl
      (fun s k => s + prev.getD k JNum.nan * ((w.getD k []).getD j JNum.nan))
      (JNum.fin 0) + b.getD j JNum.nan)
  (pres, pres.map (tbl key).func)

/-- The outer loop of `forward` (source lines 807-826), producing the
`(preActivations, values)` pair of each layer `i+1, …`; `fuel` counts the
remaining weight matrices (`this.weights.length - i`). -/
def forwardLayers (tbl : ActivationKey → ActivationDefQ)
    (sizes : List ℕ) (acts : List ActivationKey)
    (weights : List (List (List JNum))) (biases : List (List JNum)) :
    ℕ → ℕ → List JNum → List (List JNum × List JNum)
  | _, 0, _ => []
  | i, fuel + 1, prev =>
    let p := layerForward tbl (acts.getD (i + 1) .SIGMOID)
      (sizes.getD (i + 1) 0) (weights.getD i []) (biases.getD i []) prev
    p :: forwardLayers tbl sizes acts weights biases (i + 1) fuel p.2

/-- `forward` (source lines 804-828): stores the input as layer 0 of both
caches, runs the layer loop, overwrites the value/pre-activation caches
(entries beyond index `weights.length` are untouched by the loop, hence
the `drop`), and returns `this.values[this.values.length - 1]`. -/
def SimpleNetwork.forward (tbl : ActivationKey → ActivationDefQ)
    (net : SimpleNetwork) (inputs : List JNum) :
    SimpleNetwork × List JNum :=
  let W := net.weights.length
  let pairs := forwardLayers tbl net.layerSizes net.activations net.weights net.biases 0 W inputs
  let newValues := inputs :: pairs.map Prod.snd ++ net.values.drop (W + 1)
  let newPre := inputs :: pairs.map Prod.fst ++ net.preActivations.drop (W + 1)
  ({ net with values := newValues, preActivations := newPre },
   newValues.getLastD [])

/-! ## The backward pass (`train`, source lines 830-872)

The imperative loop is rendered functionally.  `updList f i l` applies
`f` elementwise with the index offset `i`; it models the in-place writes
of the inner loops, which touch indices `0, …, bound-1` of the mutated
arrays and leave any further entries untouched. -/

def updList {α : Type} (f : ℕ → α → α) : ℕ → List α → List α
  | _, [] => []
  | i, a :: as => f i a :: updList f (i + 1) as

/-- The weight update of one row `k` (source lines 850-856): for each
`j < layerSizes[i+1]`, `gradient = nextLayerErrors[j] * currentValues[k]`;
a non-finite gradient is skipped (`continue`), otherwise
`delta = Math.max(-1, Math.min(1, learningRate * gradient))` is added to
the weight. -/
def updRow (lr : JNum) (errNext : List JNum) (vk : JNum) (size1 : ℕ)
    (row : List JNum) : List JNum :=
  updList (fun j w =>
    if j < size1 then
      if (errNext.getD j JNum.nan * vk).isFinite then
        w + JNum.clamp (lr * (errNext.getD j JNum.nan * vk))
      else w
    else w) 0 row

/-- The delta-cache update of one row `k` (source line 855): the applied
`delta` is recorded; a skipped update leaves the cache entry unchanged. -/
def updRowDelta (lr : JNum) (errNext : List JNum) (vk : JNum) (size1 : ℕ)
    (drow : List JNum) : List JNum :=
  updList (fun j d =>
    if j < size1 ∧ (errNext.getD j JNum.nan * vk).isFinite then
      JNum.clamp (lr * (errNext.getD j JNum.nan * vk))
    else d) 0 drow

/-- The weight update of layer transition `i` (source lines 849-857),
rows `k < layerSizes[i]`. -/
def updWeightsLayer (lr : JNum) (errNext : List JNum) (vals : List JNum)
    (size0 size1 : ℕ) (wl : List (List JNum)) : List (List JNum) :=
  updList (fun k row =>
    if k < size0 then updRow lr errNext (vals.getD k JNum.nan) size1 row else row) 0 wl

/-- The delta-cache update of layer transition `i`. -/
def updDeltasLayer (lr : JNum) (errNext : List JNum) (vals : List JNum)
    (size0 size1 : ℕ) (dl : List (List JNum)) : List (List JNum) :=
  updList (fun k drow =>
    if k < size0 then updRowDelta lr errNext (vals.getD k JNum.nan) size1 drow else drow) 0 dl

/-- The bias update of layer transition `i` (source lines 858-860): every
bias `j < layerSizes[i+1]` receives `Math.max(-1, Math.min(1,
learningRate * nextLayerErrors[j]))`, with no finiteness guard. -/
def updBiasLayer (lr : JNum) (errNext : List JNum) (size1 : ℕ)
    (bl : List JNum) : List JNum :=
  updList (fun j b =>
    if j < size1 then b + JNum.clamp (lr * errNext.getD j JNum.nan) else b) 0 bl

/-- The hidden-layer error vector (source lines 861-869): for each
`k < layerSizes[i]`, sum `nextLayerErrors[j] * this.weights[i][k][j]` over
`j < layerSizes[i+1]` — note `this.weights[i]` has already been updated at
this point — replace a non-finite sum by `0`, and multiply by the
derivative of the cached value. -/
def layerErrorsCalc (errNext : List JNum) (wl : List (List JNum))
    (dv : JNum → JNum) (vals : List JNum) (size0 size1 : ℕ) : List JNum :=
  (List.range size0).map fun k =>
    JNum.sanitize ((List.range size1).foldl
      (fun s j => s + errNext.getD j JNum.nan * ((wl.getD k []).getD j JNum.nan))
      (JNum.fin 0))
    * dv (vals.getD k JNum.nan)

/-- The mutable state threaded through the backward loop: the three
parameter arrays and the `layerErrors` table. -/
structure TrainState where
  weights : List (List (List JNum))
  weightDeltas : List (List (List JNum))
  biases : List (List JNum)
  errs : List (List JNum)
deriving DecidableEq

/-- The body of one iteration of the backward loop, at loop index `i`
(source lines 844-869): read `nextLayerErrors` and `currentValues`, pick
the derivative (constant `1` at the input layer, whose error vector is
never used), update weights, delta cache and biases, and for `0 < i`
store the freshly computed error vector. -/
def trainStep (tbl : ActivationKey → ActivationDefQ) (sizes : List ℕ)
    (acts : List ActivationKey) (vals : List (List JNum)) (lr : JNum)
    (i : ℕ) (st : TrainState) : TrainState :=
  let errNext := st.errs.getD (i + 1) []
  let curVals := vals.getD i []
  let dv : JNum → JNum :=
    if 0 < i then (tbl (acts.getD i .SIGMOID)).deriv else fun _ => JNum.fin 1
  let size0 := sizes.getD i 0
  let size1 := sizes.getD (i + 1) 0
  let wl := updWeightsLayer lr errNext curVals size0 size1 (st.weights.getD i [])
  let dl := updDeltasLayer lr errNext curVals size0 size1 (st.weightDeltas.getD i [])
  let bl := updBiasLayer lr errNext size1 (st.biases.getD i [])
  let errs' := if 0 < i then
      st.errs.set i (layerErrorsCalc errNext wl dv curVals size0 size1)
    else st.errs
  ⟨st.weights.set i wl, st.weightDeltas.set i dl, st.biases.set i bl, errs'⟩

/-- The backward loop `for (let i = this.weights.length - 1; i >= 0; i--)`
(source lines 843-870); `fuel = i + 1`, so `fuel = f + 1` processes layer
transition `f`.  `vals` is the value cache left by the forward pass (it is
not mutated by the loop). -/
def trainLoop (tbl : ActivationKey → ActivationDefQ) (sizes : List ℕ)
    (acts : List ActivationKey) (vals : List (List JNum)) (lr : JNum) :
    ℕ → TrainState → TrainState
  | 0, st => st
  | i + 1, st =>
    trainLoop tbl sizes acts vals lr i (trainStep tbl sizes acts vals lr i st)

/-- `train` (source lines 830-872): run `forward`, compute the output
errors `(targets[i] - outputs[i]) * deriv(outputs[i])`, seed the
`layerErrors` table at the output layer, and run the backward loop.  The
source returns nothing; the internal `layerErrors` table is returned here
alongside the mutated network so the backpropagation claims can refer to
it. -/
def SimpleNetwork.train (tbl : ActivationKey → ActivationDefQ)
    (net : SimpleNetwork) (inputs targets : List JNum) (lr : JNum) :
    SimpleNetwork × List (List JNum) :=
  let net1 := (net.forward tbl inputs).1
  let outIdx := net.layerSizes.length - 1
  let outputs := net1.values.getD outIdx []
  let dOut := (tbl (net.activations.getD outIdx .SIGMOID)).deriv
  let outputErrors := (List.range outputs.length).map fun i =>
    (targets.getD i JNum.nan - outputs.getD i JNum.nan) * dOut (outputs.getD i JNum.nan)
  let errs0 := (List.replicate net.layerSizes.length ([] : List JNum)).set outIdx outputErrors
  let st := trainLoop tbl net.layerSizes net.activations net1.values lr net.weights.length
    ⟨net1.weights, net1.weightDeltas, net1.biases, errs0⟩
  ({ net1 with weights := st.weights, weightDeltas := st.weightDeltas, biases := st.biases },
   st.errs)

/-- The output-error vector computed by `train` (source lines 838-840). -/
def outputErrorsOf (tbl : ActivationKey → ActivationDefQ) (net : SimpleNetwork)
    (inputs targets : List JNum) : List JNum :=
  (List.range ((net.forward tbl inputs).1.values.getD (net.layerSizes.length - 1) []).length).map
    fun i =>
      (targets.getD i JNum.nan -
        ((net.forward tbl inputs).1.values.getD (net.layerSizes.length - 1) []).getD i JNum.nan) *
      (tbl (net.activations.getD (net.layerSizes.length - 1) .SIGMOID)).deriv
        (((net.forward tbl inputs).1.values.getD (net.layerSizes.length - 1) []).getD i JNum.nan)

/-- The state seeded into the backward loop by `train`. -/
def trainInit (tbl : ActivationKey → ActivationDefQ) (net : SimpleNetwork)
    (inputs targets : List JNum) : TrainState :=
  ⟨net.weights, net.weightDeltas, net.biases,
   (List.replicate net.layerSizes.length ([] : List JNum)).set
     (net.layerSizes.length - 1) (outputErrorsOf tbl net inputs targets)⟩

/-! ## The turbo branch of the simulation loop (source lines 1034-1049) -/

/-- The loss of `updateVisuals` (source lines 988-990):
`0.5 * ((target[i] || 0) - output[i])²` summed over the output layer. -/
def lossOf (net : SimpleNetwork) (targets : List JNum) : JNum :=
  let output := net.values.getLastD []
  (List.range output.length).foldl
    (fun s i =>
      s + JNum.fin (mkRat 1 2) *
        ((JNum.orZero (targets.getD i JNum.nan) - output.getD i JNum.nan) *
         (JNum.orZero (targets.getD i JNum.nan) - output.getD i JNum.nan)))
    (JNum.fin 0)

/-- `const CONVERGENCE = 0.00005` (source line 1031). -/
def CONVERGENCE : JNum := JNum.fin (mkRat 5 100000)

/-- The state read and written by one turbo frame. -/
structure TurboState where
  net : SimpleNetwork
  inputs : List JNum
  targets : List JNum
  learningRate : JNum
  epochs : ℕ
  lossHistory : List (ℕ × JNum)
  isPlaying : Bool
  isOptimized : Bool
deriving DecidableEq

/-- The ten training steps of one turbo frame
(`for(let k=0; k<10; k++) networkRef.current!.train(...)`). -/
def trainTen (tbl : ActivationKey → ActivationDefQ) (s : TurboState) :
    SimpleNetwork :=
  (fun n => (SimpleNetwork.train tbl n s.inputs s.targets s.learningRate).1)^[10] s.net

/-- One turbo frame (source lines 1035-1048): if playing, run 10 training
steps, add 10 to the epoch counter, recompute the loss, append it to the
history (capacity 200, oldest dropped via `slice(-200)`), and stop with
the optimized flag when the loss falls below `CONVERGENCE`.  When not
playing, no frame callback is scheduled and nothing happens. -/
def turboStep (tbl : ActivationKey → ActivationDefQ) (s : TurboState) :
    TurboState :=
  if s.isPlaying then
    let net' := trainTen tbl s
    let ep := s.epochs + 10
    let loss := lossOf net' s.targets
    let h := s.lossHistory ++ [(ep, loss)]
    let h' := if 200 < h.length then h.drop (h.length - 200) else h
    if JNum.lt loss CONVERGENCE then
      { s with net := net', epochs := ep, lossHistory := h',
               isPlaying := false, isOptimized := true }
    else
      { s with net := net', epochs := ep, lossHistory := h' }
  else s

/-! ## The activation registry over `ℝ` (source lines 743-749)

The registry formulas involve `Math.exp`/`Math.tanh`; they are stated
over the real numbers.  `name` and `color` are presentational and
omitted. -/

/-- A registry entry: a forward function of the raw input and a
derivative function of the forward output. -/
structure ActivationDef where
  func : ℝ → ℝ
  deriv : ℝ → ℝ

/-- `ACTIVATION_FUNCTIONS` (source lines 743-749), translated entry by
entry from the source formulas. -/
noncomputable def ACTIVATION_FUNCTIONS : ActivationKey → ActivationDef
  | .SIGMOID => ⟨fun x => 1 / (1 + Real.exp (-x)), fun y => y * (1 - y)⟩
  | .TANH => ⟨fun x => Real.tanh x, fun y => 1 - y * y⟩
  | .RELU => ⟨fun x => max 0 x, fun y => if 0 < y then 1 else 0.05⟩
  | .LEAKY_RELU => ⟨fun x => max (0.01 * x) x, fun y => if 0 < y then 1 else 0.01⟩
  | .ELU => ⟨fun x => if 0 ≤ x then x else 1.0 * (Real.exp x - 1),
             fun y => if 0 < y then 1 else y + 1.0⟩

/-- The forward functions exactly as written in spec section 4.1, for
comparison with the source registry. -/
noncomputable def specActivationFunc : ActivationKey → ℝ → ℝ
  | .SIGMOID => fun x => 1 / (1 + Real.exp (-x))
  | .TANH => fun x => Real.tanh x
  | .RELU => fun x => max 0 x
  | .LEAKY_RELU => fun x => max (0.01 * x) x
  | .ELU => fun x => if 0 ≤ x then x else Real.exp x - 1

/-- The derivative functions (of the forward output) exactly as written
in spec section 4.1. -/
noncomputable def specActivationDeriv : ActivationKey → ℝ → ℝ
  | .SIGMOID => fun y => y * (1 - y)
  | .TANH => fun y => 1 - y * y
  | .RELU => fun y => if 0 < y then 1 else 0.05
  | .LEAKY_RELU => fun y => if 0 < y then 1 else 0.01
  | .ELU => fun y => if 0 < y then 1 else y + 1

/-! ## The projection engine (`project3D`, source lines 1079-1128) -/

/-- One entry of the `layerDims` state: the row/column extent of a layer's
unit grid. -/
structure LayerDim where
  rows : ℕ
  cols : ℕ
deriving DecidableEq

/-- The camera state: yaw (`cameraAngle.h`), pitch (`cameraAngle.v`), both
in degrees, zoom (`viewScale`), pan (`viewOffset`), and projection mode
(`isOrtho`). -/
structure Camera where
  h : ℝ
  v : ℝ
  zoom : ℝ
  panX : ℝ
  panY : ℝ
  ortho : Bool

/-- The 3D position of unit `(layerIdx, row, col)` (source lines
1080-1095): fixed spacing constants, the network centred along the layer
axis and each layer's grid centred along its row/column axes. -/
noncomputable def layoutPos (dims : List LayerDim) (layerIdx row col : ℕ) :
    ℝ × ℝ × ℝ :=
  let xStart := -(((dims.length : ℝ) - 1) * 250) / 2
  let dim := dims.getD layerIdx ⟨0, 0⟩
  let yStart := -(((dim.rows : ℝ) - 1) * 80) / 2
  let zStart := -(((dim.cols : ℝ) - 1) * 80) / 2
  (xStart + (layerIdx : ℝ) * 250, yStart + (row : ℝ) * 80, zStart + (col : ℝ) * 80)

/-- The rotation of `project3D` (source lines 1097-1114): yaw about the
vertical axis, then pitch about the horizontal axis applied to the
yaw-rotated coordinates; returns `(x2, y2, z2)`. -/
noncomputable def rotate3D (cam : Camera) (p : ℝ × ℝ × ℝ) : ℝ × ℝ × ℝ :=
  let radH := cam.h * Real.pi / 180
  let radV := cam.v * Real.pi / 180
  let x1 := p.1 * Real.cos radH - p.2.2 * Real.sin radH
  let z1 := p.1 * Real.sin radH + p.2.2 * Real.cos radH
  (x1, p.2.1 * Real.cos radV - z1 * Real.sin radV,
   p.2.1 * Real.sin radV + z1 * Real.cos radV)

/-- The result of `project3D`: screen position, scale factor and the
depth used for sorting. -/
structure Proj where
  x : ℝ
  y : ℝ
  scale : ℝ
  depth : ℝ

/-- `project3D` (source lines 1079-1128): perspective scale is
`fov / (fov - z2)` with `fov = 1000`, orthographic scale is `1`; both are
multiplied by the camera zoom; depth is the rotated `z2`. -/
noncomputable def project3D (dims : List LayerDim) (cam : Camera)
    (layerIdx row col : ℕ) : Proj :=
  let p := rotate3D cam (layoutPos dims layerIdx row col)
  let fov : ℝ := 1000
  let baseScale := if cam.ortho then 1 else fov / (fov - p.2.2)
  { x := 400 + p.1 * cam.zoom * (if cam.ortho then 1 else baseScale) + cam.panX
    y := 300 + p.2.1 * cam.zoom * (if cam.ortho then 1 else baseScale) + cam.panY
    scale := baseScale * cam.zoom
    depth := p.2.2 }

/-! ## The scene builder (`renderItems`, source lines 1226-1312) -/

/-- The tagged variants of a render item. -/
inductive RKind where
  | node
  | link
  | layerControl
  | activationControl
deriving DecidableEq

/-- A render item.  `aIdx`/`bIdx` are the flat unit indices (`flatIdx`,
or `fromFlat`/`toFlat` for a link); `x2`/`y2`/`scale2` are the link's
second endpoint; the React `key` strings and the `isInput`/`isOutput`
flags (recomputable from `lIdx`) are bookkeeping and omitted. -/
structure RenderItem where
  kind : RKind
  lIdx : ℕ
  aIdx : ℕ := 0
  bIdx : ℕ := 0
  x : ℝ := 0
  y : ℝ := 0
  scale : ℝ := 0
  x2 : ℝ := 0
  y2 : ℝ := 0
  scale2 : ℝ := 0
  value : JNum := JNum.fin 0
  bias : JNum := JNum.fin 0
  w : JNum := JNum.fin 0
  delta : JNum := JNum.fin 0
  depth : ℝ

/-- The visual cache read by the scene builder: deep copies of the
network's arrays (`displayStats`, source lines 929-936). -/
structure DisplayStats where
  values : List (List JNum)
  weights : List (List (List JNum))
  deltas : List (List (List JNum))
  biases : List (List JNum)
  preActivations : List (List JNum)
  loss : JNum

/-- The node/control generation loop of `renderItems` (source lines
1231-1272): one node per grid unit; a layer control on the unit at
`r = rows-1, c = ⌊cols/2⌋` with depth `pos.depth + 10`; an activation
control on hidden layers at `r = 0, c = ⌊cols/2⌋`, same depth offset. -/
noncomputable def nodeItems (dims : List LayerDim) (cam : Camera)
    (stats : DisplayStats) : List RenderItem :=
  (List.range dims.length).flatMap fun l =>
    let dim := dims.getD l ⟨0, 0⟩
    (List.range dim.rows).flatMap fun r =>
      (List.range dim.cols).flatMap fun c =>
        let flat := r * dim.cols + c
        let pos := project3D dims cam l r c
        let value := JNum.orZero ((stats.values.getD l []).getD flat JNum.nan)
        let bias := if 0 < l then
            JNum.orZero ((stats.biases.getD (l - 1) []).getD flat JNum.nan)
          else JNum.fin 0
        [{ kind := .node, lIdx := l, aIdx := flat, x := pos.x, y := pos.y,
           scale := pos.scale, value := value, bias := bias, depth := pos.depth }]
        ++ (if r = dim.rows - 1 ∧ c = dim.cols / 2 then
            [{ kind := .layerControl, lIdx := l, x := pos.x,
               y := pos.y + 60 * pos.scale, scale := pos.scale,
               depth := pos.depth + 10 }] else [])
        ++ (if (0 < l ∧ l ≠ dims.length - 1) ∧ r = 0 ∧ c = dim.cols / 2 then
            [{ kind := .activationControl, lIdx := l, x := pos.x,
               y := pos.y - 90 * pos.scale, scale := pos.scale,
               depth := pos.depth + 10 }] else [])

/-- The connection generation loop of `renderItems` (source lines
1275-1306): one link per weight between adjacent layers, skipped when
`layerDims[lIdx+1]` is absent; depth is the average of the endpoint
depths. -/
noncomputable def linkItems (dims : List LayerDim) (cam : Camera)
    (stats : DisplayStats) : List RenderItem :=
  (List.range stats.weights.length).flatMap fun l =>
    if l + 1 < dims.length then
      let fromDim := dims.getD l ⟨0, 0⟩
      let toDim := dims.getD (l + 1) ⟨0, 0⟩
      (List.range fromDim.rows).flatMap fun r1 =>
        (List.range fromDim.cols).flatMap fun c1 =>
          let fromFlat := r1 * fromDim.cols + c1
          let fromPos := project3D dims cam l r1 c1
          (List.range toDim.rows).flatMap fun r2 =>
            (List.range toDim.cols).flatMap fun c2 =>
              let toFlat := r2 * toDim.cols + c2
              let toPos := project3D dims cam (l + 1) r2 c2
              [{ kind := .link, lIdx := l, aIdx := fromFlat, bIdx := toFlat,
                 x := fromPos.x, y := fromPos.y, scale := fromPos.scale,
                 x2 := toPos.x, y2 := toPos.y, scale2 := toPos.scale,
                 w := JNum.orZero (((stats.weights.getD l []).getD fromFlat []).getD toFlat JNum.nan),
                 delta := JNum.orZero (((stats.deltas.getD l []).getD fromFlat []).getD toFlat JNum.nan),
                 depth := (fromPos.depth + toPos.depth) / 2 }]
    else []

/-- The comparison used by `items.sort((a, b) => a.depth - b.depth)`. -/
def depthLE (a b : RenderItem) : Prop := a.depth ≤ b.depth

noncomputable instance : DecidableRel depthLE :=
  fun a b => inferInstanceAs (Decidable (a.depth ≤ b.depth))

instance : IsTotal RenderItem depthLE := ⟨fun a b => le_total a.depth b.depth⟩

instance : IsTrans RenderItem depthLE := ⟨fun _ _ _ hab hbc => le_trans hab hbc⟩

/-- `renderItems` (source lines 1226-1312): empty when the visual cache is
empty; otherwise nodes and controls, then links, sorted ascending by
depth (a stable sort, as JavaScript's `Array.prototype.sort`). -/
noncomputable def renderItems (dims : List LayerDim) (cam : Camera)
    (stats : DisplayStats) : List RenderItem :=
  if stats.values.length = 0 then []
  else List.insertionSort depthLE (nodeItems dims cam stats ++ linkItems dims cam stats)

/-! ## Accessors and well-formedness -/

/-- `this.layerSizes[i]`. -/
def sizeAt (net : SimpleNetwork) (i : ℕ) : ℕ := net.layerSizes.getD i 0

/-- `this.activations[i]`. -/
def actAt (net : SimpleNetwork) (i : ℕ) : ActivationKey :=
  net.activations.getD i .SIGMOID

/-- `this.weights[i][k][j]`. -/
def wAt (net : SimpleNetwork) (i k j : ℕ) : JNum :=
  ((net.weights.getD i []).getD k []).getD j JNum.nan

/-- `this.weightDeltas[i][k][j]`. -/
def dAt (net : SimpleNetwork) (i k j : ℕ) : JNum :=
  ((net.weightDeltas.getD i []).getD k []).getD j JNum.nan

/-- `this.biases[i][j]`. -/
def bAt (net : SimpleNetwork) (i j : ℕ) : JNum :=
  (net.biases.getD i []).getD j JNum.nan

/-- `this.values[i][k]`. -/
def vAt (net : SimpleNetwork) (i k : ℕ) : JNum :=
  (net.values.getD i []).getD k JNum.nan

/-- `this.preActivations[i][k]`. -/
def pAt (net : SimpleNetwork) (i k : ℕ) : JNum :=
  (net.preActivations.getD i []).getD k JNum.nan

/-- `layerErrors[i][k]` of a returned error table. -/
def errAt (errs : List (List JNum)) (i k : ℕ) : JNum :=
  (errs.getD i []).getD k JNum.nan

/-- The structural invariant of spec section 3, maintained by the
constructor: per-transition weight/delta matrices of dimensions
`sizes[i] × sizes[i+1]`, bias vectors of length `sizes[i+1]`, one
value/pre-activation row of length `sizes[i]` per layer, one activation
key per layer. -/
def WellFormed (net : SimpleNetwork) : Prop :=
  net.activations.length = net.layerSizes.length ∧
  net.weights.length = net.layerSizes.length - 1 ∧
  net.weightDeltas.length = net.layerSizes.length - 1 ∧
  net.biases.length = net.layerSizes.length - 1 ∧
  net.values.length = net.layerSizes.length ∧
  net.preActivations.length = net.layerSizes.length ∧
  (∀ i, i < net.layerSizes.length → (net.values.getD i []).length = sizeAt net i) ∧
  (∀ i, i < net.layerSizes.length → (net.preActivations.getD i []).length = sizeAt net i) ∧
  (∀ t, t < net.weights.length →
    (net.weights.getD t []).length = sizeAt net t ∧
    (net.weightDeltas.getD t []).length = sizeAt net t ∧
    (net.biases.getD t []).length = sizeAt net (t + 1) ∧
    (∀ k, k < sizeAt net t →
      ((net.weights.getD t []).getD k []).length = sizeAt net (t + 1) ∧
      ((net.weightDeltas.getD t []).getD k []).length = sizeAt net (t + 1)))

instance (net : SimpleNetwork) : Decidable (WellFormed net) := by
  unfold WellFormed sizeAt
  infer_instance

/-! ## Concrete instances used by witnesses and counterexamples -/

/-- A 1-1-1 network, ReLU throughout, with unit weights and zero biases. -/
def c1net : SimpleNetwork :=
  { layerSizes := [1, 1, 1]
    activations := [.RELU, .RELU, .RELU]
    weights := [[[JNum.fin 1]], [[JNum.fin 1]]]
    weightDeltas := [[[JNum.fin 0]], [[JNum.fin 0]]]
    biases := [[JNum.fin 0], [JNum.fin 0]]
    values := [[JNum.fin 0], [JNum.fin 0], [JNum.fin 0]]
    preActivations := [[JNum.fin 0], [JNum.fin 0], [JNum.fin 0]] }

/-- A 1-1 network, ReLU output, unit weight and zero bias. -/
def c2net : SimpleNetwork :=
  { layerSizes := [1, 1]
    activations := [.RELU, .RELU]
    weights := [[[JNum.fin 1]]]
    weightDeltas := [[[JNum.fin 0]]]
    biases := [[JNum.fin 0]]
    values := [[JNum.fin 0], [JNum.fin 0]]
    preActivations := [[JNum.fin 0], [JNum.fin 0]] }

/-- A playing turbo state over `c2net` with a zero sample. -/
def c9state : TurboState :=
  { net := c2net, inputs := [JNum.fin 0], targets := [JNum.fin 0],
    learningRate := JNum.fin 1, epochs := 0, lossHistory := [],
    isPlaying := true, isOptimized := false }

/-- Constant stand-ins for `Math.sqrt` and `Math.random`. -/
def rngSqrt : ℕ → ℚ := fun _ => 1

def rngW : ℕ → ℕ → ℕ → ℚ := fun _ _ _ => 1/2

def rngB : ℕ → ℕ → ℚ := fun _ _ => 1/2

/-- Ten single-unit layers: the widest layout the editor allows, whose
extreme layers rotate to depths beyond the fov constant. -/
def c6dims : List LayerDim :=
  [⟨1, 1⟩, ⟨1, 1⟩, ⟨1, 1⟩, ⟨1, 1⟩, ⟨1, 1⟩, ⟨1, 1⟩, ⟨1, 1⟩, ⟨1, 1⟩, ⟨1, 1⟩, ⟨1, 1⟩]

/-- Yaw 90°, pitch 0, zoom 1, no pan, perspective. -/
def c6cam : Camera := ⟨90, 0, 1, 0, 0, false⟩

/-- The default orientation: yaw 0, pitch 0, zoom 1, no pan, perspective. -/
def c6camW : Camera := ⟨0, 0, 1, 0, 0, false⟩

/-- A single layer of one row and two columns. -/
def c6dimsW : List LayerDim := [⟨1, 2⟩]

/-- Shorthand: the network after a `train` call. -/
def trainNet (tbl : ActivationKey → ActivationDefQ) (net : SimpleNetwork)
    (inputs targets : List JNum) (lr : JNum) : SimpleNetwork :=
  (net.train tbl inputs targets lr).1

/-- Shorthand: the `layerErrors` table of a `train` call. -/
def trainErrs (tbl : ActivationKey → ActivationDefQ) (net : SimpleNetwork)
    (inputs targets : List JNum) (lr : JNum) : List (List JNum) :=
  (net.train tbl inputs targets lr).2

/-! ## List index bookkeeping -/

theorem qadd_eq (a b : ℚ) : qadd a b = a + b := by
  rw [Rat.add_def, qadd, Rat.mkRat_def, dif_neg (Nat.mul_ne_zero a.den_nz b.den_nz)]

theorem qmul_eq (a b : ℚ) : qmul a b = a * b := by
  rw [Rat.mul_def, qmul, Rat.mkRat_def, dif_neg (Nat.mul_ne_zero a.den_nz b.den_nz)]

theorem getD_map_lt {α β : Type} (f : α → β) (l : List α) (i : ℕ) (d : β)
    (d' : α) (h : i < l.length) : (l.map f).getD i d = f (l.getD i d') := by
  have h2 : i < (l.map f).length := by simpa using h
  simp [List.getD_eq_getElem?_getD, List.getElem?_eq_getElem, h,
    List.getElem?_eq_getElem h2]

theorem getD_range_map {α : Type} (f : ℕ → α) (n j : ℕ) (d : α) (h : j < n) :
    ((List.range n).map f).getD j d = f j := by
  rw [getD_map_lt f _ j d 0 (by simpa using h)]
  simp [List.getD_eq_getElem?_getD, List.getElem?_range, h]

theorem getD_append_lt {α : Type} (l m : List α) (n : ℕ) (d : α)
    (h : n < l.length) : (l ++ m).getD n d = l.getD n d := by
  simp [List.getD_eq_getElem?_getD, List.getElem?_append, h]

theorem getD_set_ne {α : Type} (l : List α) (i n : ℕ) (a d : α) (h : i ≠ n) :
    (l.set i a).getD n d = l.getD n d := by
  simp [List.getD_eq_getElem?_getD, List.getElem?_set_ne h]

theorem getD_set_lt {α : Type} (l : List α) (i : ℕ) (a d : α)
    (h : i < l.length) : (l.set i a).getD i d = a := by
  simp [List.getD_eq_getElem?_getD, List.getElem?_set_self h]

/-- Writing the image of the current entry under `g` back at index `i`
reads back as that image, provided `g` fixes the out-of-bounds default. -/
theorem getD_set_apply {α : Type} (l : List α) (i : ℕ) (g : α → α) (d : α)
    (hg : g d = d) : (l.set i (g (l.getD i d))).getD i d = g (l.getD i d) := by
  rcases Nat.lt_or_ge i l.length with h | h
  · exact getD_set_lt _ _ _ _ h
  · rw [List.set_eq_of_length_le (by simpa using h)]
    rw [List.getD_eq_getElem?_getD, List.getElem?_eq_none (by simpa using h)]
    simpa using hg.symm

theorem updList_length {α : Type} (f : ℕ → α → α) (i : ℕ) (l : List α) :
    (updList f i l).length = l.length := by
  induction l generalizing i with
  | nil => rfl
  | cons a as ih => simp [updList, ih]

theorem updList_getD {α : Type} (f : ℕ → α → α) (i n : ℕ) (l : List α)
    (d : α) (h : n < l.length) :
    (updList f i l).getD n d = f (i + n) (l.getD n d) := by
  induction l generalizing i n with
  | nil => simp at h
  | cons a as ih =>
    cases n with
    | zero => simp [updList]
    | succ m =>
      rw [updList, List.getD_cons_succ, List.getD_cons_succ,
        ih (i + 1) m (by simpa using h)]
      congr 1
      omega

theorem updList_nil {α : Type} (f : ℕ → α → α) (i : ℕ) :
    updList f i [] = [] := rfl

/-! ## Structure of the forward pass -/

theorem sanitize_isFinite (x : JNum) : (JNum.sanitize x).isFinite = true := by
  unfold JNum.sanitize
  cases x <;> simp [JNum.isFinite]

theorem forwardLayers_length (tbl : ActivationKey → ActivationDefQ)
    (sizes : List ℕ) (acts : List ActivationKey)
    (ws : List (List (List JNum))) (bs : List (List JNum)) :
    ∀ fuel i prev, (forwardLayers tbl sizes acts ws bs i fuel prev).length = fuel := by
  intro fuel
  induction fuel with
  | zero => intro i prev; rfl
  | succ f ih => intro i prev; simp [forwardLayers, ih]

/-- Entry `m` of the layer loop's output: the body applied to layer
`i + m + 1`, fed with the previous entry's values (or the inputs for the
first entry). -/
theorem forwardLayers_getD (tbl : ActivationKey → ActivationDefQ)
    (sizes : List ℕ) (acts : List ActivationKey)
    (ws : List (List (List JNum))) (bs : List (List JNum)) :
    ∀ fuel i prev m, m < fuel →
    (forwardLayers tbl sizes acts ws bs i fuel prev).getD m ([], []) =
      layerForward tbl (acts.getD (i + m + 1) .SIGMOID) (sizes.getD (i + m + 1) 0)
        (ws.getD (i + m) []) (bs.getD (i + m) [])
        (if m = 0 then prev
         else ((forwardLayers tbl sizes acts ws bs i fuel prev).getD (m - 1) ([], [])).2) := by
  intro fuel
  induction fuel with
  | zero => intro i prev m hm; omega
  | succ f ih =>
    intro i prev m hm
    cases m with
    | zero => simp [forwardLayers]
    | succ m' =>
      have step : forwardLayers tbl sizes acts ws bs i (f + 1) prev =
          layerForward tbl (acts.getD (i + 1) .SIGMOID) (sizes.getD (i + 1) 0)
            (ws.getD i []) (bs.getD i []) prev ::
          forwardLayers tbl sizes acts ws bs (i + 1) f
            (layerForward tbl (acts.getD (i + 1) .SIGMOID) (sizes.getD (i + 1) 0)
              (ws.getD i []) (bs.getD i []) prev).2 := rfl
      rw [step, List.getD_cons_succ,
        ih (i + 1) _ m' (by omega)]
      have harg : (i + 1) + m' + 1 = i + (m' + 1) + 1 := by omega
      have harg2 : (i + 1) + m' = i + (m' + 1) := by omega
      rw [harg, harg2]
      congr 1
      cases m' with
      | zero => simp
      | succ m'' => simp [List.getD_cons_succ]

theorem forward_values_getD_zero (tbl : ActivationKey → ActivationDefQ)
    (net : SimpleNetwork) (inputs : List JNum) :
    (net.forward tbl inputs).1.values.getD 0 [] = inputs := rfl

theorem forward_preActivations_getD_zero (tbl : ActivationKey → ActivationDefQ)
    (net : SimpleNetwork) (inputs : List JNum) :
    (net.forward tbl inputs).1.preActivations.getD 0 [] = inputs := rfl

theorem forward_values_getD_succ (tbl : ActivationKey → ActivationDefQ)
    (net : SimpleNetwork) (inputs : List JNum) (n : ℕ)
    (hn : n < net.weights.length) :
    (net.forward tbl inputs).1.values.getD (n + 1) [] =
      ((forwardLayers tbl net.layerSizes net.activations net.weights net.biases
        0 net.weights.length inputs).getD n ([], [])).2 := by
  show (inputs :: (forwardLayers tbl net.layerSizes net.activations net.weights net.biases
      0 net.weights.length inputs).map Prod.snd ++
      net.values.drop (net.weights.length + 1)).getD (n + 1) [] = _
  rw [getD_append_lt _ _ _ _
      (by simp [forwardLayers_length]; omega),
    List.getD_cons_succ,
    getD_map_lt Prod.snd _ n [] ([], []) (by simpa [forwardLayers_length] using hn)]

theorem forward_preActivations_getD_succ (tbl : ActivationKey → ActivationDefQ)
    (net : SimpleNetwork) (inputs : List JNum) (n : ℕ)
    (hn : n < net.weights.length) :
    (net.forward tbl inputs).1.preActivations.getD (n + 1) [] =
      ((forwardLayers tbl net.layerSizes net.activations net.weights net.biases
        0 net.weights.length inputs).getD n ([], [])).1 := by
  show (inputs :: (forwardLayers tbl net.layerSizes net.activations net.weights net.biases
      0 net.weights.length inputs).map Prod.fst ++
      net.preActivations.drop (net.weights.length + 1)).getD (n + 1) [] = _
  rw [getD_append_lt _ _ _ _
      (by simp [forwardLayers_length]; omega),
    List.getD_cons_succ,
    getD_map_lt Prod.fst _ n [] ([], []) (by simpa [forwardLayers_length] using hn)]

/-- The layer relation computed by `forward`: layer `n+1`'s
pre-activations are the sanitized weighted sums of layer `n`'s values
plus the biases, and its values are the activations of those
pre-activations. -/
theorem forward_layer_spec (tbl : ActivationKey → ActivationDefQ)
    (net : SimpleNetwork) (inputs : List JNum) (n : ℕ)
    (hn : n < net.weights.length) :
    (net.forward tbl inputs).1.preActivations.getD (n + 1) [] =
      (List.range (net.layerSizes.getD (n + 1) 0)).map (fun j =>
        JNum.sanitize ((List.range ((net.forward tbl inputs).1.values.getD n []).length).foldl
          (fun s k => s + ((net.forward tbl inputs).1.values.getD n []).getD k JNum.nan *
            ((net.weights.getD n []).getD k []).getD j JNum.nan)
          (JNum.fin 0) + (net.biases.getD n []).getD j JNum.nan)) ∧
    (net.forward tbl inputs).1.values.getD (n + 1) [] =
      ((net.forward tbl inputs).1.preActivations.getD (n + 1) []).map
        (tbl (net.activations.getD (n + 1) .SIGMOID)).func := by
  have hprev : (if n = 0 then inputs
      else ((forwardLayers tbl net.layerSizes net.activations net.weights net.biases
        0 net.weights.length inputs).getD (n - 1) ([], [])).2) =
      (net.forward tbl inputs).1.values.getD n [] := by
    cases n with
    | zero => rw [forward_values_getD_zero]; simp
    | succ m =>
      rw [forward_values_getD_succ tbl net inputs m (by omega)]
      simp
  have hmain := forwardLayers_getD tbl net.layerSizes net.activations net.weights
    net.biases net.weights.length 0 inputs n hn
  simp only [Nat.zero_add] at hmain
  rw [hprev] at hmain
  constructor
  · rw [forward_preActivations_getD_succ tbl net inputs n hn, hmain]
    rfl
  · rw [forward_values_getD_succ tbl net inputs n hn, hmain,
      forward_preActivations_getD_succ tbl net inputs n hn, hmain]
    rfl

/-! ## Structure of the backward pass -/

theorem trainLoop_errs_length (tbl : ActivationKey → ActivationDefQ)
    (sizes : List ℕ) (acts : List ActivationKey) (vals : List (List JNum))
    (lr : JNum) : ∀ fuel st,
    (trainLoop tbl sizes acts vals lr fuel st).errs.length = st.errs.length := by
  intro fuel
  induction fuel with
  | zero => intro st; rfl
  | succ f ih =>
    intro st
    rw [trainLoop, ih]
    unfold trainStep
    by_cases h : 0 < f <;> simp [h]

/-- The backward loop never touches layer indices at or above its fuel. -/
theorem trainLoop_preserve (tbl : ActivationKey → ActivationDefQ)
    (sizes : List ℕ) (acts : List ActivationKey) (vals : List (List JNum))
    (lr : JNum) : ∀ fuel st n, fuel ≤ n →
    (trainLoop tbl sizes acts vals lr fuel st).weights.getD n [] = st.weights.getD n [] ∧
    (trainLoop tbl sizes acts vals lr fuel st).weightDeltas.getD n [] = st.weightDeltas.getD n [] ∧
    (trainLoop tbl sizes acts vals lr fuel st).biases.getD n [] = st.biases.getD n [] ∧
    (trainLoop tbl sizes acts vals lr fuel st).errs.getD n [] = st.errs.getD n [] := by
  intro fuel
  induction fuel with
  | zero => intro st n _; exact ⟨rfl, rfl, rfl, rfl⟩
  | succ f ih =>
    intro st n hn
    rw [trainLoop]
    obtain ⟨hw, hd, hb, he⟩ := ih _ n (by omega)
    refine ⟨?_, ?_, ?_, ?_⟩
    · rw [hw]; exact getD_set_ne _ _ _ _ _ (by omega)
    · rw [hd]; exact getD_set_ne _ _ _ _ _ (by omega)
    · rw [hb]; exact getD_set_ne _ _ _ _ _ (by omega)
    · rw [he]
      show (if 0 < f then _ else st.errs).getD n [] = st.errs.getD n []
      by_cases h : 0 < f
      · rw [if_pos h]; exact getD_set_ne _ _ _ _ _ (by omega)
      · rw [if_neg h]

theorem trainStep_errs_length (tbl : ActivationKey → ActivationDefQ)
    (sizes : List ℕ) (acts : List ActivationKey) (vals : List (List JNum))
    (lr : JNum) (i : ℕ) (st : TrainState) :
    (trainStep tbl sizes acts vals lr i st).errs.length = st.errs.length := by
  unfold trainStep
  by_cases h : 0 < i <;> simp [h]

theorem trainStep_getD_ne (tbl : ActivationKey → ActivationDefQ)
    (sizes : List ℕ) (acts : List ActivationKey) (vals : List (List JNum))
    (lr : JNum) (i n : ℕ) (st : TrainState) (h : i ≠ n) :
    (trainStep tbl sizes acts vals lr i st).weights.getD n [] = st.weights.getD n [] ∧
    (trainStep tbl sizes acts vals lr i st).weightDeltas.getD n [] = st.weightDeltas.getD n [] ∧
    (trainStep tbl sizes acts vals lr i st).biases.getD n [] = st.biases.getD n [] ∧
    (trainStep tbl sizes acts vals lr i st).errs.getD n [] = st.errs.getD n [] := by
  unfold trainStep
  refine ⟨getD_set_ne _ _ _ _ _ h, getD_set_ne _ _ _ _ _ h,
    getD_set_ne _ _ _ _ _ h, ?_⟩
  show (if 0 < i then _ else st.errs).getD n [] = st.errs.getD n []
  by_cases h0 : 0 < i
  · rw [if_pos h0]; exact getD_set_ne _ _ _ _ _ h
  · rw [if_neg h0]

/-- What one backward-loop iteration leaves at its own layer index. -/
theorem trainStep_getD_self (tbl : ActivationKey → ActivationDefQ)
    (sizes : List ℕ) (acts : List ActivationKey) (vals : List (List JNum))
    (lr : JNum) (i : ℕ) (st : TrainState) :
    (trainStep tbl sizes acts vals lr i st).weights.getD i [] =
      updWeightsLayer lr (st.errs.getD (i + 1) []) (vals.getD i [])
        (sizes.getD i 0) (sizes.getD (i + 1) 0) (st.weights.getD i []) ∧
    (trainStep tbl sizes acts vals lr i st).weightDeltas.getD i [] =
      updDeltasLayer lr (st.errs.getD (i + 1) []) (vals.getD i [])
        (sizes.getD i 0) (sizes.getD (i + 1) 0) (st.weightDeltas.getD i []) ∧
    (trainStep tbl sizes acts vals lr i st).biases.getD i [] =
      updBiasLayer lr (st.errs.getD (i + 1) []) (sizes.getD (i + 1) 0)
        (st.biases.getD i []) ∧
    (0 < i → i < st.errs.length →
      (trainStep tbl sizes acts vals lr i st).errs.getD i [] =
        layerErrorsCalc (st.errs.getD (i + 1) [])
          (updWeightsLayer lr (st.errs.getD (i + 1) []) (vals.getD i [])
            (sizes.getD i 0) (sizes.getD (i + 1) 0) (st.weights.getD i []))
          ((tbl (acts.getD i .SIGMOID)).deriv) (vals.getD i [])
          (sizes.getD i 0) (sizes.getD (i + 1) 0)) := by
  unfold trainStep
  refine ⟨getD_set_apply _ _ _ _ rfl, getD_set_apply _ _ _ _ rfl,
    getD_set_apply _ _ _ _ rfl, ?_⟩
  intro h0 hlen
  show (if 0 < i then _ else st.errs).getD i [] = _
  rw [if_pos h0]
  rw [getD_set_lt _ _ _ _ hlen]
  simp only [h0, if_true]

/-- What the backward loop leaves at layer transition `i`: each parameter
array entry is the update function applied to its incoming entry, with the
error vector finally stored at `i + 1` (which is the one in effect when
`i` was processed); for `0 < i` the stored error vector at `i` is computed
from the already-updated weights of transition `i`. -/
theorem trainLoop_char (tbl : ActivationKey → ActivationDefQ)
    (sizes : List ℕ) (acts : List ActivationKey) (vals : List (List JNum))
    (lr : JNum) : ∀ fuel st i, i < fuel → fuel ≤ st.errs.length →
    (trainLoop tbl sizes acts vals lr fuel st).weights.getD i [] =
      updWeightsLayer lr ((trainLoop tbl sizes acts vals lr fuel st).errs.getD (i + 1) [])
        (vals.getD i []) (sizes.getD i 0) (sizes.getD (i + 1) 0)
        (st.weights.getD i []) ∧
    (trainLoop tbl sizes acts vals lr fuel st).weightDeltas.getD i [] =
      updDeltasLayer lr ((trainLoop tbl sizes acts vals lr fuel st).errs.getD (i + 1) [])
        (vals.getD i []) (sizes.getD i 0) (sizes.getD (i + 1) 0)
        (st.weightDeltas.getD i []) ∧
    (trainLoop tbl sizes acts vals lr fuel st).biases.getD i [] =
      updBiasLayer lr ((trainLoop tbl sizes acts vals lr fuel st).errs.getD (i + 1) [])
        (sizes.getD (i + 1) 0) (st.biases.getD i []) ∧
    (0 < i → (trainLoop tbl sizes acts vals lr fuel st).errs.getD i [] =
      layerErrorsCalc ((trainLoop tbl sizes acts vals lr fuel st).errs.getD (i + 1) [])
        ((trainLoop tbl sizes acts vals lr fuel st).weights.getD i [])
        ((tbl (acts.getD i .SIGMOID)).deriv) (vals.getD i [])
        (sizes.getD i 0) (sizes.getD (i + 1) 0)) := by
  intro fuel
  induction fuel with
  | zero => intro st i hi _; omega
  | succ f ih =>
    intro st i hi hlen
    rw [trainLoop]
    by_cases hif : i < f
    · have hlen' : f ≤ (trainStep tbl sizes acts vals lr f st).errs.length := by
        rw [trainStep_errs_length]; omega
      have h := ih (trainStep tbl sizes acts vals lr f st) i hif hlen'
      have hne := trainStep_getD_ne tbl sizes acts vals lr f i st (by omega)
      rw [hne.1, hne.2.1, hne.2.2.1] at h
      exact h
    · have hieq : i = f := by omega
      subst hieq
      obtain ⟨pw, pd, pb, pe⟩ := trainLoop_preserve tbl sizes acts vals lr i
        (trainStep tbl sizes acts vals lr i st) i (le_refl i)
      obtain ⟨_, _, _, pe1⟩ := trainLoop_preserve tbl sizes acts vals lr i
        (trainStep tbl sizes acts vals lr i st) (i + 1) (by omega)
      have heN : (trainLoop tbl sizes acts vals lr i
          (trainStep tbl sizes acts vals lr i st)).errs.getD (i + 1) [] =
          st.errs.getD (i + 1) [] := by
        rw [pe1]
        exact (trainStep_getD_ne tbl sizes acts vals lr i (i + 1) st (by omega)).2.2.2
      obtain ⟨sw, sd, sb, se⟩ := trainStep_getD_self tbl sizes acts vals lr i st
      refine ⟨?_, ?_, ?_, ?_⟩
      · rw [pw, heN, sw]
      · rw [pd, heN, sd]
      · rw [pb, heN, sb]
      · intro h0
        rw [pe, heN, pw, sw, se h0 (by omega)]

/-- `train` in terms of the forward pass and the backward loop. -/
theorem train_eq (tbl : ActivationKey → ActivationDefQ) (net : SimpleNetwork)
    (inputs targets : List JNum) (lr : JNum) :
    SimpleNetwork.train tbl net inputs targets lr =
      ({ (net.forward tbl inputs).1 with
          weights := (trainLoop tbl net.layerSizes net.activations
            (net.forward tbl inputs).1.values lr net.weights.length
            (trainInit tbl net inputs targets)).weights
          weightDeltas := (trainLoop tbl net.layerSizes net.activations
            (net.forward tbl inputs).1.values lr net.weights.length
            (trainInit tbl net inputs targets)).weightDeltas
          biases := (trainLoop tbl net.layerSizes net.activations
            (net.forward tbl inputs).1.values lr net.weights.length
            (trainInit tbl net inputs targets)).biases },
       (trainLoop tbl net.layerSizes net.activations
         (net.forward tbl inputs).1.values lr net.weights.length
         (trainInit tbl net inputs targets)).errs) := rfl

/-- `forward` reads only the architecture, parameters and input; of the
value/pre-activation caches it keeps only the entries beyond the layer
range, which the loop does not touch. -/
theorem forward_congr (tbl : ActivationKey → ActivationDefQ)
    (n n' : SimpleNetwork) (inputs : List JNum)
    (hs : n.layerSizes = n'.layerSizes) (ha : n.activations = n'.activations)
    (hw : n.weights = n'.weights) (hd : n.weightDeltas = n'.weightDeltas)
    (hb : n.biases = n'.biases)
    (hv : n.values.drop (n.weights.length + 1) =
      n'.values.drop (n'.weights.length + 1))
    (hp : n.preActivations.drop (n.weights.length + 1) =
      n'.preActivations.drop (n'.weights.length + 1)) :
    n.forward tbl inputs = n'.forward tbl inputs := by
  obtain ⟨s, a, w, d, b, v, p⟩ := n
  obtain ⟨s', a', w', d', b', v', p'⟩ := n'
  simp only at hs ha hw hd hb hv hp
  subst hs; subst ha; subst hw; subst hd; subst hb
  simp only [SimpleNetwork.forward] at hv hp ⊢
  rw [hv, hp]

/-- `forward` is idempotent: a second call with the same input returns
the same output and leaves the network in the same state. -/
theorem forward_idem (tbl : ActivationKey → ActivationDefQ)
    (net : SimpleNetwork) (inputs : List JNum) :
    (net.forward tbl inputs).1.forward tbl inputs = net.forward tbl inputs := by
  apply forward_congr <;> try rfl
  · show ((inputs :: (forwardLayers tbl net.layerSizes net.activations net.weights
        net.biases 0 net.weights.length inputs).map Prod.snd ++
        net.values.drop (net.weights.length + 1)).drop (net.weights.length + 1)) = _
    rw [List.drop_left' (show (inputs :: (forwardLayers tbl net.layerSizes
      net.activations net.weights net.biases 0 net.weights.length inputs).map
      Prod.snd).length = net.weights.length + 1 by simp [forwardLayers_length])]
  · show ((inputs :: (forwardLayers tbl net.layerSizes net.activations net.weights
        net.biases 0 net.weights.length inputs).map Prod.fst ++
        net.preActivations.drop (net.weights.length + 1)).drop (net.weights.length + 1)) = _
    rw [List.drop_left' (show (inputs :: (forwardLayers tbl net.layerSizes
      net.activations net.weights net.biases 0 net.weights.length inputs).map
      Prod.fst).length = net.weights.length + 1 by simp [forwardLayers_length])]

/-- The constructor establishes the structural invariant whenever the
activation assignment has one entry per layer. -/
theorem construct_wellFormed (sq : ℕ → ℚ) (rW : ℕ → ℕ → ℕ → ℚ)
    (rB : ℕ → ℕ → ℚ) (sizes : List ℕ) (acts : List ActivationKey)
    (ha : acts.length = sizes.length) :
    WellFormed (SimpleNetwork.construct sq rW rB sizes acts) := by
  unfold WellFormed SimpleNetwork.construct sizeAt
  refine ⟨ha, by simp, by simp, by simp, by simp, by simp, ?_, ?_, ?_⟩
  · intro i hi
    rw [getD_map_lt _ _ _ _ 0 hi]
    simp
  · intro i hi
    rw [getD_map_lt _ _ _ _ 0 hi]
    simp
  · intro t ht
    have ht' : t < sizes.length - 1 := by simpa using ht
    refine ⟨?_, ?_, ?_, ?_⟩
    · rw [getD_range_map _ _ _ _ ht']; simp
    · rw [getD_range_map _ _ _ _ ht']; simp
    · rw [getD_range_map _ _ _ _ ht']; simp
    · intro k hk
      constructor
      · rw [getD_range_map _ _ _ _ ht', getD_range_map _ _ _ _ hk]
        simp
      · rw [getD_range_map _ _ _ _ ht']
        rw [List.getD_eq_getElem?_getD]
        simp only [List.getElem?_replicate]
        rw [if_pos (show k < sizes.getD t 0 from hk)]
        simp

/-! ## Remaining helper lemmas -/

theorem jmax_fin_fin (a b : ℚ) :
    (JNum.jmax (JNum.fin a) (JNum.fin b)).isFinite = true := by
  show (if JNum.lt (JNum.fin b) (JNum.fin a) then JNum.fin a
    else JNum.fin b).isFinite = true
  split <;> rfl

/-- The two `ℚ`-exact registry entries send finite inputs to finite
outputs (as all five registry functions do over the reals). -/
theorem qTable_finPres (k : ActivationKey) (x : JNum)
    (hx : x.isFinite = true) : ((qTable k).func x).isFinite = true := by
  cases x with
  | fin q => cases k <;> exact jmax_fin_fin _ _
  | inf => simp [JNum.isFinite] at hx
  | ninf => simp [JNum.isFinite] at hx
  | nan => simp [JNum.isFinite] at hx

theorem getD_default_irrel {α : Type} (l : List α) (n : ℕ) (d d' : α)
    (h : n < l.length) : l.getD n d = l.getD n d' := by
  simp [List.getD_eq_getElem?_getD, List.getElem?_eq_getElem h]

theorem getLastD_eq_getD {α : Type} (l : List α) (d : α) :
    l.getLastD d = l.getD (l.length - 1) d := by
  induction l generalizing d with
  | nil => rfl
  | cons a t ih =>
    rw [List.getLastD_cons, ih a]
    cases t with
    | nil => rfl
    | cons b t' =>
      simp only [List.length_cons, Nat.add_sub_cancel, List.getD_cons_succ]
      exact getD_default_irrel _ _ _ _ (by simp)

theorem forward_values_length (tbl : ActivationKey → ActivationDefQ)
    (net : SimpleNetwork) (inputs : List JNum) (n : ℕ)
    (hn : n < net.weights.length) :
    ((net.forward tbl inputs).1.values.getD (n + 1) []).length =
      net.layerSizes.getD (n + 1) 0 := by
  rw [(forward_layer_spec tbl net inputs n hn).2, List.length_map,
    (forward_layer_spec tbl net inputs n hn).1]
  simp

theorem forward_output_eq (tbl : ActivationKey → ActivationDefQ)
    (net : SimpleNetwork) (inputs : List JNum)
    (hW : net.weights.length = net.layerSizes.length - 1)
    (hvl : net.values.length = net.layerSizes.length)
    (h2 : 2 ≤ net.layerSizes.length) :
    (net.forward tbl inputs).2 =
      (net.forward tbl inputs).1.values.getD (net.layerSizes.length - 1) [] := by
  have hD : net.values.drop (net.weights.length + 1) = [] := by
    apply List.drop_eq_nil_of_le
    rw [hvl, hW]
    omega
  have hP : (inputs :: (forwardLayers tbl net.layerSizes net.activations
      net.weights net.biases 0 net.weights.length inputs).map Prod.snd).length =
      net.weights.length + 1 := by
    simp [forwardLayers_length]
  show ((inputs :: (forwardLayers tbl net.layerSizes net.activations
      net.weights net.biases 0 net.weights.length inputs).map Prod.snd) ++
      net.values.drop (net.weights.length + 1)).getLastD [] =
    ((inputs :: (forwardLayers tbl net.layerSizes net.activations
      net.weights net.biases 0 net.weights.length inputs).map Prod.snd) ++
      net.values.drop (net.weights.length + 1)).getD (net.layerSizes.length - 1) []
  rw [hD, List.append_nil, getLastD_eq_getD, hP, Nat.add_sub_cancel, hW]

/-! ## The claims -/

/-- C5: the activation registry is exactly the five-element set
{Sigmoid, Tanh, ReLU, LeakyReLU, ELU}, and for each member the forward
function of the raw input and the derivative function of the forward
output equal the spec formulas: Sigmoid `1/(1+e^(-x))` and `y(1-y)`;
Tanh `tanh x` and `1-y²`; ReLU `max(0,x)` and `1 if y>0 else 0.05`;
LeakyReLU `max(0.01x,x)` and `1 if y>0 else 0.01`; ELU
`x if x≥0 else eˣ-1` and `1 if y>0 else y+1`. -/
theorem claim_C5 :
    (∀ k : ActivationKey, k = .SIGMOID ∨ k = .TANH ∨ k = .RELU ∨
      k = .LEAKY_RELU ∨ k = .ELU) ∧
    (∀ k : ActivationKey, (ACTIVATION_FUNCTIONS k).func = specActivationFunc k ∧
      (ACTIVATION_FUNCTIONS k).deriv = specActivationDeriv k) := by
  constructor
  · intro k
    cases k <;> simp
  · intro k
    cases k <;> refine ⟨funext fun x => ?_, funext fun y => ?_⟩ <;>
      simp [ACTIVATION_FUNCTIONS, specActivationFunc, specActivationDeriv] <;>
      norm_num

/-- C7: every render-item list produced by the scene builder is sorted
non-decreasing by depth. -/
theorem claim_C7 (dims : List LayerDim) (cam : Camera) (stats : DisplayStats) :
    List.Sorted depthLE (renderItems dims cam stats) := by
  unfold renderItems
  split
  · exact List.sorted_nil
  · exact List.sorted_insertionSort depthLE _

/-- C10: for every layer index outside `1 ≤ layerIdx ≤ layers - 1` and
every value, `setLayerBias` raises no error and leaves the network
unchanged, provided the bias table has its invariant length (one vector
per layer transition). -/
theorem claim_C10 (net : SimpleNetwork) (layerIdx : ℤ) (value : JNum)
    (hb : net.biases.length = net.layerSizes.length - 1)
    (h : layerIdx < 1 ∨ (net.layerSizes.length : ℤ) - 1 < layerIdx) :
    net.setLayerBias layerIdx value = net := by
  have hneg : ¬(0 ≤ layerIdx - 1 ∧ layerIdx - 1 < (net.biases.length : ℤ)) := by
    rintro ⟨h1, h2⟩
    rw [hb] at h2
    rcases h with h | h <;> omega
  unfold SimpleNetwork.setLayerBias
  rw [if_neg hneg]

/-- C10 witness: index 5 on a 2-layer network is a no-op. -/
theorem claim_C10_witness :
    c2net.biases.length = c2net.layerSizes.length - 1 ∧
    ((5 : ℤ) < 1 ∨ (c2net.layerSizes.length : ℤ) - 1 < 5) ∧
    c2net.setLayerBias 5 (JNum.fin 7) = c2net :=
  ⟨by decide, by decide, claim_C10 c2net 5 (JNum.fin 7) (by decide) (by decide)⟩

/-- C4 counterexample: the constructor performs no validation, so the
invalid argument lists `[5]` (a single layer) and `[2, 0, 2]` (a zero
size) still produce networks — no ConfigError or any other failure
exists in the code. -/
theorem claim_C4_counterexample :
    SimpleNetwork.construct rngSqrt rngW rngB [5] [.SIGMOID] =
      { layerSizes := [5], activations := [.SIGMOID], weights := [],
        weightDeltas := [], biases := [],
        values := [List.replicate 5 (JNum.fin 0)],
        preActivations := [List.replicate 5 (JNum.fin 0)] } ∧
    (SimpleNetwork.construct rngSqrt rngW rngB [2, 0, 2]
      [.RELU, .RELU, .RELU]).layerSizes = [2, 0, 2] := by
  constructor <;> decide

/-- C4 (amended): constructing a network never fails: for every argument
list — including fewer than 2 layers or entries equal to 0 — the
constructor returns a network carrying the given layer sizes, and a
well-formed one whenever the activation list matches the layer count;
invalid architectures are prevented only upstream, by the clamped editing
controls. -/
theorem claim_C4_amended (sq : ℕ → ℚ) (rW : ℕ → ℕ → ℕ → ℚ)
    (rB : ℕ → ℕ → ℚ) (sizes : List ℕ) (acts : List ActivationKey) :
    (SimpleNetwork.construct sq rW rB sizes acts).layerSizes = sizes ∧
    (acts.length = sizes.length →
      WellFormed (SimpleNetwork.construct sq rW rB sizes acts)) :=
  ⟨rfl, fun ha => construct_wellFormed sq rW rB sizes acts ha⟩

/-- C4 amended witness: a 2-1 architecture with matching activations is
constructed well-formed. -/
theorem claim_C4_amended_witness :
    (SimpleNetwork.construct rngSqrt rngW rngB [2, 1] [.RELU, .RELU]).layerSizes
      = [2, 1] ∧
    WellFormed (SimpleNetwork.construct rngSqrt rngW rngB [2, 1] [.RELU, .RELU]) :=
  ⟨(claim_C4_amended rngSqrt rngW rngB [2, 1] [.RELU, .RELU]).1,
   (claim_C4_amended rngSqrt rngW rngB [2, 1] [.RELU, .RELU]).2 (by decide)⟩

/-- C8: `forward` is idempotent: with the same input and no intervening
mutation, a second call returns the same output vector and leaves the
network in the same state as a single call. -/
theorem claim_C8 (tbl : ActivationKey → ActivationDefQ) (net : SimpleNetwork)
    (inputs : List JNum) (hlen : inputs.length = net.layerSizes.getD 0 0) :
    (net.forward tbl inputs).1.forward tbl inputs = net.forward tbl inputs :=
  forward_idem tbl net inputs

/-- C8 witness on the concrete 1-1-1 network. -/
theorem claim_C8_witness :
    [JNum.fin 1].length = c1net.layerSizes.getD 0 0 ∧
    (c1net.forward qTable [JNum.fin 1]).1.forward qTable [JNum.fin 1] =
      c1net.forward qTable [JNum.fin 1] :=
  ⟨by decide, claim_C8 qTable c1net [JNum.fin 1] (by decide)⟩

/-- C9: in turbo mode, a rendering frame with the simulation playing
executes exactly 10 full training steps and adds exactly 10 to the epoch
counter; hence after N frames with no convergence and no explicit stop
(the playing flag still set at each frame), an epoch counter started at 0
equals 10·N. -/
theorem claim_C9 (tbl : ActivationKey → ActivationDefQ) (s : TurboState) :
    (s.isPlaying = true →
      (turboStep tbl s).net =
        (fun n => (SimpleNetwork.train tbl n s.inputs s.targets s.learningRate).1)^[10] s.net ∧
      (turboStep tbl s).epochs = s.epochs + 10) ∧
    (∀ N : ℕ, s.epochs = 0 →
      (∀ i, i < N → ((turboStep tbl)^[i] s).isPlaying = true) →
      ((turboStep tbl)^[N] s).epochs = 10 * N) := by
  have hstep : ∀ t : TurboState, t.isPlaying = true →
      (turboStep tbl t).net = trainTen tbl t ∧
      (turboStep tbl t).epochs = t.epochs + 10 := by
    intro t ht
    simp only [turboStep, ht, reduceIte]
    constructor <;> split <;> rfl
  constructor
  · intro hp
    exact hstep s hp
  · intro N
    induction N with
    | zero =>
      intro h0 _
      simpa using h0
    | succ n ih =>
      intro h0 hplay
      rw [Function.iterate_succ_apply']
      rw [(hstep _ (hplay n (by omega))).2,
        ih h0 (fun i hi => hplay i (by omega))]
      ring

/-- C9 witness: one playing frame on the concrete state runs the 10
steps and brings the epoch counter from 0 to 10. -/
theorem claim_C9_witness :
    c9state.isPlaying = true ∧ c9state.epochs = 0 ∧
    (∀ i, i < 1 → ((turboStep qTable)^[i] c9state).isPlaying = true) ∧
    (turboStep qTable c9state).epochs = c9state.epochs + 10 ∧
    ((turboStep qTable)^[1] c9state).epochs = 10 * 1 :=
  ⟨rfl, rfl, by decide,
   ((claim_C9 qTable c9state).1 rfl).2,
   (claim_C9 qTable c9state).2 1 rfl (by decide)⟩

/-- C6 (amended): in perspective mode, for any two projected points whose
rotated depths both lie strictly below the fov constant 1000, and with a
positive camera zoom (the UI clamps zoom to [0.05, 5]), the scale factors
differ strictly and the nearer point — the one with the larger depth —
receives the strictly larger scale. -/
theorem claim_C6_amended (dims : List LayerDim) (cam : Camera)
    (l1 r1 c1 l2 r2 c2 : ℕ) (ho : cam.ortho = false) (hz : 0 < cam.zoom)
    (hd : (project3D dims cam l1 r1 c1).depth < (project3D dims cam l2 r2 c2).depth)
    (hfov : (project3D dims cam l2 r2 c2).depth < 1000) :
    (project3D dims cam l1 r1 c1).scale < (project3D dims cam l2 r2 c2).scale := by
  have e1 : (project3D dims cam l1 r1 c1).scale =
      1000 / (1000 - (project3D dims cam l1 r1 c1).depth) * cam.zoom := by
    simp [project3D, ho]
  have e2 : (project3D dims cam l2 r2 c2).scale =
      1000 / (1000 - (project3D dims cam l2 r2 c2).depth) * cam.zoom := by
    simp [project3D, ho]
  rw [e1, e2]
  have h2 : (0 : ℝ) < 1000 - (project3D dims cam l2 r2 c2).depth := by linarith
  have h1 : 1000 - (project3D dims cam l2 r2 c2).depth <
      1000 - (project3D dims cam l1 r1 c1).depth := by linarith
  exact mul_lt_mul_of_pos_right
    (div_lt_div_of_pos_left (by norm_num) h2 h1) hz

/-- C6 witness: with the default orientation, the two columns of a 1×2
layer differ only in depth (−40 vs 40, both below 1000), and the nearer
column receives the larger scale. -/
theorem claim_C6_amended_witness :
    c6camW.ortho = false ∧ (0 : ℝ) < c6camW.zoom ∧
    (project3D c6dimsW c6camW 0 0 0).depth < (project3D c6dimsW c6camW 0 0 1).depth ∧
    (project3D c6dimsW c6camW 0 0 1).depth < 1000 ∧
    (project3D c6dimsW c6camW 0 0 0).scale < (project3D c6dimsW c6camW 0 0 1).scale := by
  have hd0 : (project3D c6dimsW c6camW 0 0 0).depth = -40 := by
    simp [project3D, rotate3D, layoutPos, c6dimsW, c6camW]
    norm_num
  have hd1 : (project3D c6dimsW c6camW 0 0 1).depth = 40 := by
    simp [project3D, rotate3D, layoutPos, c6dimsW, c6camW]
    norm_num
  have hz : (0 : ℝ) < c6camW.zoom := by
    show (0 : ℝ) < 1
    norm_num
  refine ⟨rfl, hz, ?_, ?_, ?_⟩
  · rw [hd0, hd1]; norm_num
  · rw [hd1]; norm_num
  · exact claim_C6_amended c6dimsW c6camW 0 0 0 0 0 1 rfl hz
      (by rw [hd0, hd1]; norm_num) (by rw [hd1]; norm_num)

/-- C6 counterexample: with 10 single-unit layers, yaw 90°, pitch 0,
zoom 1 and perspective mode, layers 8 and 9 rotate to coordinates that
agree in x and y and differ only in depth (875 vs 1125); the nearer point
(depth 1125, beyond the fov constant) receives scale −8, strictly
smaller than the farther point's scale 8 — nearer does not imply a
larger scale. -/
theorem claim_C6_counterexample :
    (rotate3D c6cam (layoutPos c6dims 8 0 0)).1 =
      (rotate3D c6cam (layoutPos c6dims 9 0 0)).1 ∧
    (rotate3D c6cam (layoutPos c6dims 8 0 0)).2.1 =
      (rotate3D c6cam (layoutPos c6dims 9 0 0)).2.1 ∧
    (project3D c6dims c6cam 8 0 0).depth < (project3D c6dims c6cam 9 0 0).depth ∧
    (project3D c6dims c6cam 9 0 0).scale < (project3D c6dims c6cam 8 0 0).scale := by
  have hangle : (90 : ℝ) * Real.pi / 180 = Real.pi / 2 := by ring
  refine ⟨?_, ?_, ?_, ?_⟩ <;>
    simp [project3D, rotate3D, layoutPos, c6dims, c6cam, hangle,
      Real.cos_pi_div_two, Real.sin_pi_div_two] <;>
    norm_num

/-- C3: on a well-formed network of at least 2 layers, with an input of
the input-layer length, `forward` computes each subsequent layer's
pre-activation as the weighted sum of the previous layer's values plus
the unit's bias with non-finite sums replaced by 0 before activation,
and — for any finiteness-preserving activation table, as the registry's
functions are — returns a vector of finite values whose length is the
output layer size. -/
theorem claim_C3 (tbl : ActivationKey → ActivationDefQ) (net : SimpleNetwork)
    (inputs : List JNum) (hwf : WellFormed net)
    (h2 : 2 ≤ net.layerSizes.length) (hlen : inputs.length = sizeAt net 0)
    (hfp : ∀ k x, x.isFinite = true → ((tbl k).func x).isFinite = true) :
    (∀ i, i < net.weights.length → ∀ j, j < sizeAt net (i + 1) →
      pAt (net.forward tbl inputs).1 (i + 1) j =
        JNum.sanitize
          ((List.range ((net.forward tbl inputs).1.values.getD i []).length).foldl
            (fun s k => s + vAt (net.forward tbl inputs).1 i k * wAt net i k j)
            (JNum.fin 0) + bAt net i j) ∧
      vAt (net.forward tbl inputs).1 (i + 1) j =
        (tbl (actAt net (i + 1))).func (pAt (net.forward tbl inputs).1 (i + 1) j)) ∧
    (net.forward tbl inputs).2.length = sizeAt net (net.layerSizes.length - 1) ∧
    (∀ u, u < (net.forward tbl inputs).2.length →
      ((net.forward tbl inputs).2.getD u JNum.nan).isFinite = true) := by
  obtain ⟨ha, hW, hWd, hB, hV, hP, hVl, hPl, hT⟩ := hwf
  have hout := forward_output_eq tbl net inputs hW hV h2
  obtain ⟨w', hw'⟩ : ∃ w', net.weights.length = w' + 1 :=
    ⟨net.weights.length - 1, by omega⟩
  have hL : net.layerSizes.length - 1 = w' + 1 := by omega
  refine ⟨?_, ?_, ?_⟩
  · intro i hi j hj
    have hspec := forward_layer_spec tbl net inputs i hi
    have hlenp : ((net.forward tbl inputs).1.preActivations.getD (i + 1) []).length =
        net.layerSizes.getD (i + 1) 0 := by
      rw [hspec.1]
      simp
    constructor
    · unfold pAt vAt wAt bAt
      rw [hspec.1,
        getD_range_map _ _ _ _ (show j < net.layerSizes.getD (i + 1) 0 from hj)]
    · unfold vAt pAt actAt
      rw [hspec.2, getD_map_lt _ _ _ _ JNum.nan (by rw [hlenp]; exact hj)]
  · rw [hout, hL, forward_values_length tbl net inputs w' (by omega)]
    unfold sizeAt
    rfl
  · intro u hu
    rw [hout, hL] at hu ⊢
    have hspec := forward_layer_spec tbl net inputs w' (by omega)
    rw [hspec.2] at hu ⊢
    have hu2 : u < net.layerSizes.getD (w' + 1) 0 := by
      rw [List.length_map, hspec.1] at hu
      simpa using hu
    have hup : u < ((net.forward tbl inputs).1.preActivations.getD (w' + 1) []).length := by
      rw [hspec.1]
      simpa using hu2
    rw [getD_map_lt _ _ _ _ JNum.nan hup]
    apply hfp
    rw [hspec.1, getD_range_map _ _ _ _ hu2]
    exact sanitize_isFinite _

/-- C3 witness on the concrete 1-1-1 network with the exact `RELU`
table entries. -/
theorem claim_C3_witness :
    WellFormed c1net ∧ 2 ≤ c1net.layerSizes.length ∧
    [JNum.fin 1].length = sizeAt c1net 0 ∧
    (c1net.forward qTable [JNum.fin 1]).2.length =
      sizeAt c1net (c1net.layerSizes.length - 1) :=
  ⟨by decide, by decide, by decide,
   (claim_C3 qTable c1net [JNum.fin 1] (by decide) (by decide) (by decide)
     qTable_finPres).2.1⟩

theorem updWeightsLayer_getD (lr : JNum) (errNext vals : List JNum)
    (size0 size1 : ℕ) (wl : List (List JNum)) (k j : ℕ)
    (hk : k < size0) (hkl : k < wl.length) (hj : j < size1)
    (hjl : j < (wl.getD k []).length) :
    ((updWeightsLayer lr errNext vals size0 size1 wl).getD k []).getD j JNum.nan =
      if (errNext.getD j JNum.nan * vals.getD k JNum.nan).isFinite = true then
        (wl.getD k []).getD j JNum.nan +
          JNum.clamp (lr * (errNext.getD j JNum.nan * vals.getD k JNum.nan))
      else (wl.getD k []).getD j JNum.nan := by
  unfold updWeightsLayer
  rw [updList_getD _ _ _ _ _ hkl]
  simp only [Nat.zero_add]
  rw [if_pos hk]
  unfold updRow
  rw [updList_getD _ _ _ _ _ hjl]
  simp only [Nat.zero_add]
  rw [if_pos hj]

theorem updDeltasLayer_getD (lr : JNum) (errNext vals : List JNum)
    (size0 size1 : ℕ) (dl : List (List JNum)) (k j : ℕ)
    (hk : k < size0) (hkl : k < dl.length) (hj : j < size1)
    (hjl : j < (dl.getD k []).length) :
    ((updDeltasLayer lr errNext vals size0 size1 dl).getD k []).getD j JNum.nan =
      if (errNext.getD j JNum.nan * vals.getD k JNum.nan).isFinite = true then
        JNum.clamp (lr * (errNext.getD j JNum.nan * vals.getD k JNum.nan))
      else (dl.getD k []).getD j JNum.nan := by
  unfold updDeltasLayer
  rw [updList_getD _ _ _ _ _ hkl]
  simp only [Nat.zero_add]
  rw [if_pos hk]
  unfold updRowDelta
  rw [updList_getD _ _ _ _ _ hjl]
  simp only [Nat.zero_add, hj, true_and]

theorem updBiasLayer_getD (lr : JNum) (errNext : List JNum) (size1 : ℕ)
    (bl : List JNum) (j : ℕ) (hj : j < size1) (hjl : j < bl.length) :
    (updBiasLayer lr errNext size1 bl).getD j JNum.nan =
      bl.getD j JNum.nan + JNum.clamp (lr * errNext.getD j JNum.nan) := by
  unfold updBiasLayer
  rw [updList_getD _ _ _ _ _ hjl]
  simp only [Nat.zero_add]
  rw [if_pos hj]

/-- C2 (amended): in every `train` call on a well-formed network, each
applied weight update equals `clamp(lr·gradient)` with the weight
gradient `error_{i+1}[j]·value_i[k]`, and its value is recorded in the
delta cache; a non-finite weight gradient is skipped, leaving weight and
cached delta unchanged.  Bias updates, however, are always applied as
`clamp(lr·error_{i+1}[j])` with no finiteness check — a non-finite bias
gradient is not skipped. -/
theorem claim_C2_amended (tbl : ActivationKey → ActivationDefQ)
    (net : SimpleNetwork) (inputs targets : List JNum) (lr : JNum)
    (hwf : WellFormed net) (i k j : ℕ) (hi : i < net.weights.length)
    (hk : k < sizeAt net i) (hj : j < sizeAt net (i + 1)) :
    ((errAt (trainErrs tbl net inputs targets lr) (i + 1) j *
        vAt (trainNet tbl net inputs targets lr) i k).isFinite = true →
      wAt (trainNet tbl net inputs targets lr) i k j =
        wAt net i k j +
          JNum.clamp (lr * (errAt (trainErrs tbl net inputs targets lr) (i + 1) j *
            vAt (trainNet tbl net inputs targets lr) i k)) ∧
      dAt (trainNet tbl net inputs targets lr) i k j =
        JNum.clamp (lr * (errAt (trainErrs tbl net inputs targets lr) (i + 1) j *
          vAt (trainNet tbl net inputs targets lr) i k))) ∧
    ((errAt (trainErrs tbl net inputs targets lr) (i + 1) j *
        vAt (trainNet tbl net inputs targets lr) i k).isFinite = false →
      wAt (trainNet tbl net inputs targets lr) i k j = wAt net i k j ∧
      dAt (trainNet tbl net inputs targets lr) i k j = dAt net i k j) ∧
    bAt (trainNet tbl net inputs targets lr) i j =
      bAt net i j +
        JNum.clamp (lr * errAt (trainErrs tbl net inputs targets lr) (i + 1) j) := by
  obtain ⟨ha, hW, hWd, hB, hV, hP, hVl, hPl, hT⟩ := hwf
  have hlenInit : net.weights.length ≤
      (trainInit tbl net inputs targets).errs.length := by
    show net.weights.length ≤
      ((List.replicate net.layerSizes.length ([] : List JNum)).set
        (net.layerSizes.length - 1) (outputErrorsOf tbl net inputs targets)).length
    rw [List.length_set, List.length_replicate, hW]
    omega
  have char := trainLoop_char tbl net.layerSizes net.activations
    (net.forward tbl inputs).1.values lr net.weights.length
    (trainInit tbl net inputs targets) i hi hlenInit
  have hTw : (trainNet tbl net inputs targets lr).weights =
      (trainLoop tbl net.layerSizes net.activations
        (net.forward tbl inputs).1.values lr net.weights.length
        (trainInit tbl net inputs targets)).weights := rfl
  have hTd : (trainNet tbl net inputs targets lr).weightDeltas =
      (trainLoop tbl net.layerSizes net.activations
        (net.forward tbl inputs).1.values lr net.weights.length
        (trainInit tbl net inputs targets)).weightDeltas := rfl
  have hTb : (trainNet tbl net inputs targets lr).biases =
      (trainLoop tbl net.layerSizes net.activations
        (net.forward tbl inputs).1.values lr net.weights.length
        (trainInit tbl net inputs targets)).biases := rfl
  have hTv : (trainNet tbl net inputs targets lr).values =
      (net.forward tbl inputs).1.values := rfl
  have hTe : trainErrs tbl net inputs targets lr =
      (trainLoop tbl net.layerSizes net.activations
        (net.forward tbl inputs).1.values lr net.weights.length
        (trainInit tbl net inputs targets)).errs := rfl
  have hIw : (trainInit tbl net inputs targets).weights = net.weights := rfl
  have hId : (trainInit tbl net inputs targets).weightDeltas =
      net.weightDeltas := rfl
  have hIb : (trainInit tbl net inputs targets).biases = net.biases := rfl
  have hkw : k < (net.weights.getD i []).length := by
    rw [(hT i hi).1]; exact hk
  have hjw : j < ((net.weights.getD i []).getD k []).length := by
    rw [((hT i hi).2.2.2 k hk).1]; exact hj
  have hkd : k < (net.weightDeltas.getD i []).length := by
    rw [(hT i hi).2.1]; exact hk
  have hjd : j < ((net.weightDeltas.getD i []).getD k []).length := by
    rw [((hT i hi).2.2.2 k hk).2]; exact hj
  have hjb : j < (net.biases.getD i []).length := by
    rw [(hT i hi).2.2.1]; exact hj
  refine ⟨?_, ?_, ?_⟩
  · intro hg
    unfold errAt vAt at hg
    rw [hTe, hTv] at hg
    constructor
    · unfold wAt errAt vAt
      rw [hTw, hTe, hTv, char.1, hIw,
        updWeightsLayer_getD lr _ _ _ _ _ k j
          (show k < net.layerSizes.getD i 0 from hk) hkw
          (show j < net.layerSizes.getD (i + 1) 0 from hj) hjw, if_pos hg]
    · unfold dAt errAt vAt
      rw [hTd, hTe, hTv, char.2.1, hId,
        updDeltasLayer_getD lr _ _ _ _ _ k j
          (show k < net.layerSizes.getD i 0 from hk) hkd
          (show j < net.layerSizes.getD (i + 1) 0 from hj) hjd, if_pos hg]
  · intro hg
    unfold errAt vAt at hg
    rw [hTe, hTv] at hg
    constructor
    · unfold wAt
      rw [hTw, char.1, hIw,
        updWeightsLayer_getD lr _ _ _ _ _ k j
          (show k < net.layerSizes.getD i 0 from hk) hkw
          (show j < net.layerSizes.getD (i + 1) 0 from hj) hjw,
        if_neg (by rw [hg]; exact Bool.false_ne_true)]
    · unfold dAt
      rw [hTd, char.2.1, hId,
        updDeltasLayer_getD lr _ _ _ _ _ k j
          (show k < net.layerSizes.getD i 0 from hk) hkd
          (show j < net.layerSizes.getD (i + 1) 0 from hj) hjd,
        if_neg (by rw [hg]; exact Bool.false_ne_true)]
  · unfold bAt errAt
    rw [hTb, hTe, char.2.2.1, hIb, updBiasLayer_getD lr _ _ _ j
      (show j < net.layerSizes.getD (i + 1) 0 from hj) hjb]

/-- C2 counterexample: training the 1-1 network towards an infinite
target makes the bias gradient (the output error) non-finite, yet the
bias update is **not** skipped: the bias changes from 0 to the clamped 1.
(The weight update with the same non-finite gradient is skipped.) -/
theorem claim_C2_counterexample :
    errAt (trainErrs qTable c2net [JNum.fin 1] [JNum.inf] (JNum.fin 1)) 1 0 =
      JNum.inf ∧
    JNum.inf.isFinite = false ∧
    wAt (trainNet qTable c2net [JNum.fin 1] [JNum.inf] (JNum.fin 1)) 0 0 0 =
      wAt c2net 0 0 0 ∧
    bAt (trainNet qTable c2net [JNum.fin 1] [JNum.inf] (JNum.fin 1)) 0 0 =
      JNum.fin 1 ∧
    bAt c2net 0 0 = JNum.fin 0 ∧
    bAt (trainNet qTable c2net [JNum.fin 1] [JNum.inf] (JNum.fin 1)) 0 0 ≠
      bAt c2net 0 0 := by
  decide

/-- C2 amended witness: the bias equation instantiated on the concrete
1-1-1 network. -/
theorem claim_C2_amended_witness :
    WellFormed c1net ∧ 0 < c1net.weights.length ∧ 0 < sizeAt c1net 0 ∧
    0 < sizeAt c1net 1 ∧
    bAt (trainNet qTable c1net [JNum.fin 1] [JNum.fin 0] (JNum.fin 1)) 0 0 =
      bAt c1net 0 0 +
        JNum.clamp (JNum.fin 1 *
          errAt (trainErrs qTable c1net [JNum.fin 1] [JNum.fin 0] (JNum.fin 1)) 1 0) :=
  ⟨by decide, by decide, by decide, by decide,
   (claim_C2_amended qTable c1net [JNum.fin 1] [JNum.fin 0] (JNum.fin 1)
     (by decide) 0 0 0 (by decide) (by decide) (by decide)).2.2⟩

/-- C1 (amended): in every `train` call on a well-formed network, the
output-layer error of each unit equals `(target − output)·f′(output)`;
for every hidden layer `i` the error of each unit equals
`sanitize(Σ_j error_{i+1}[j]·weight_i[unit,j])·f′(value_i[unit])`, where
`value_i` is from that call's forward pass but `weight_i` is the weight
**after** that layer's update in the same call (layer `i`'s weights are
updated before its error vector is computed, so the final weights, not
the forward-pass weights, enter the sum; a non-finite sum is replaced
by 0). -/
theorem claim_C1_amended (tbl : ActivationKey → ActivationDefQ)
    (net : SimpleNetwork) (inputs targets : List JNum) (lr : JNum)
    (hwf : WellFormed net) (h2 : 2 ≤ net.layerSizes.length)
    (hlen : inputs.length = sizeAt net 0)
    (hlt : targets.length = sizeAt net (net.layerSizes.length - 1)) :
    (∀ u, u < sizeAt net (net.layerSizes.length - 1) →
      errAt (trainErrs tbl net inputs targets lr) (net.layerSizes.length - 1) u =
        (targets.getD u JNum.nan -
          vAt (trainNet tbl net inputs targets lr) (net.layerSizes.length - 1) u) *
        (tbl (actAt net (net.layerSizes.length - 1))).deriv
          (vAt (trainNet tbl net inputs targets lr) (net.layerSizes.length - 1) u)) ∧
    (∀ i, 0 < i → i < net.weights.length → ∀ k, k < sizeAt net i →
      errAt (trainErrs tbl net inputs targets lr) i k =
        JNum.sanitize ((List.range (sizeAt net (i + 1))).foldl
          (fun s j => s + errAt (trainErrs tbl net inputs targets lr) (i + 1) j *
            wAt (trainNet tbl net inputs targets lr) i k j) (JNum.fin 0)) *
        (tbl (actAt net i)).deriv (vAt (trainNet tbl net inputs targets lr) i k)) := by
  obtain ⟨ha, hW, hWd, hB, hV, hP, hVl, hPl, hT⟩ := hwf
  have hlenInit : net.weights.length ≤
      (trainInit tbl net inputs targets).errs.length := by
    show net.weights.length ≤
      ((List.replicate net.layerSizes.length ([] : List JNum)).set
        (net.layerSizes.length - 1) (outputErrorsOf tbl net inputs targets)).length
    rw [List.length_set, List.length_replicate, hW]
    omega
  have hTe : trainErrs tbl net inputs targets lr =
      (trainLoop tbl net.layerSizes net.activations
        (net.forward tbl inputs).1.values lr net.weights.length
        (trainInit tbl net inputs targets)).errs := rfl
  have hTw : (trainNet tbl net inputs targets lr).weights =
      (trainLoop tbl net.layerSizes net.activations
        (net.forward tbl inputs).1.values lr net.weights.length
        (trainInit tbl net inputs targets)).weights := rfl
  have hTv : (trainNet tbl net inputs targets lr).values =
      (net.forward tbl inputs).1.values := rfl
  obtain ⟨w', hw'⟩ : ∃ w', net.weights.length = w' + 1 :=
    ⟨net.weights.length - 1, by omega⟩
  have hL : net.layerSizes.length - 1 = w' + 1 := by omega
  constructor
  · intro u hu
    have pres := (trainLoop_preserve tbl net.layerSizes net.activations
      (net.forward tbl inputs).1.values lr net.weights.length
      (trainInit tbl net inputs targets) (net.layerSizes.length - 1)
      (by omega)).2.2.2
    have hInitE : (trainInit tbl net inputs targets).errs.getD
        (net.layerSizes.length - 1) [] = outputErrorsOf tbl net inputs targets := by
      show ((List.replicate net.layerSizes.length ([] : List JNum)).set
          (net.layerSizes.length - 1) (outputErrorsOf tbl net inputs targets)).getD
          (net.layerSizes.length - 1) [] = _
      exact getD_set_lt _ _ _ _ (by rw [List.length_replicate]; omega)
    have hul : u < ((net.forward tbl inputs).1.values.getD
        (net.layerSizes.length - 1) []).length := by
      rw [hL, forward_values_length tbl net inputs w' (by omega)]
      rw [hL] at hu
      exact hu
    unfold errAt vAt actAt
    rw [hTe, hTv, pres, hInitE]
    unfold outputErrorsOf
    rw [getD_range_map _ _ _ _ hul]
  · intro i h0 hi k hk
    have char := trainLoop_char tbl net.layerSizes net.activations
      (net.forward tbl inputs).1.values lr net.weights.length
      (trainInit tbl net inputs targets) i hi hlenInit
    unfold errAt wAt vAt actAt sizeAt
    rw [hTe, hTw, hTv, char.2.2.2 h0]
    unfold layerErrorsCalc
    rw [getD_range_map _ _ _ _ (show k < net.layerSizes.getD i 0 from hk)]

/-- C1 counterexample: on the 1-1-1 ReLU network with unit weights, zero
biases, input [1], target [0] and learning rate 1, the forward pass
leaves weight 1 between the hidden and output layers and hidden value 1,
and the output error is −1; the claimed hidden-error formula with the
forward-pass weights gives (−1·1)·f′(1) = −1, but `train` computes the
hidden error as 0, because it updates the layer's weights (1 ↦ 0) before
propagating the error through them. -/
theorem claim_C1_counterexample :
    errAt (trainErrs qTable c1net [JNum.fin 1] [JNum.fin 0] (JNum.fin 1)) 2 0 =
      JNum.fin (-1) ∧
    wAt c1net 1 0 0 = JNum.fin 1 ∧
    vAt (trainNet qTable c1net [JNum.fin 1] [JNum.fin 0] (JNum.fin 1)) 1 0 =
      JNum.fin 1 ∧
    wAt (trainNet qTable c1net [JNum.fin 1] [JNum.fin 0] (JNum.fin 1)) 1 0 0 =
      JNum.fin 0 ∧
    (List.range (sizeAt c1net 2)).foldl
      (fun s j => s + errAt (trainErrs qTable c1net [JNum.fin 1] [JNum.fin 0]
        (JNum.fin 1)) 2 j * wAt c1net 1 0 j) (JNum.fin 0) *
      (qTable (actAt c1net 1)).deriv
        (vAt (trainNet qTable c1net [JNum.fin 1] [JNum.fin 0] (JNum.fin 1)) 1 0) =
      JNum.fin (-1) ∧
    errAt (trainErrs qTable c1net [JNum.fin 1] [JNum.fin 0] (JNum.fin 1)) 1 0 =
      JNum.fin 0 ∧
    errAt (trainErrs qTable c1net [JNum.fin 1] [JNum.fin 0] (JNum.fin 1)) 1 0 ≠
      (List.range (sizeAt c1net 2)).foldl
        (fun s j => s + errAt (trainErrs qTable c1net [JNum.fin 1] [JNum.fin 0]
          (JNum.fin 1)) 2 j * wAt c1net 1 0 j) (JNum.fin 0) *
        (qTable (actAt c1net 1)).deriv
          (vAt (trainNet qTable c1net [JNum.fin 1] [JNum.fin 0] (JNum.fin 1)) 1 0) := by
  decide

/-- C1 amended witness: the post-update-weight hidden-error equation
instantiated at layer 1, unit 0 of the concrete network. -/
theorem claim_C1_amended_witness :
    WellFormed c1net ∧ 2 ≤ c1net.layerSizes.length ∧
    [JNum.fin 1].length = sizeAt c1net 0 ∧
    ([JNum.fin 0] : List JNum).length = sizeAt c1net (c1net.layerSizes.length - 1) ∧
    errAt (trainErrs qTable c1net [JNum.fin 1] [JNum.fin 0] (JNum.fin 1)) 1 0 =
      JNum.sanitize ((List.range (sizeAt c1net 2)).foldl
        (fun s j => s + errAt (trainErrs qTable c1net [JNum.fin 1] [JNum.fin 0]
          (JNum.fin 1)) 2 j *
          wAt (trainNet qTable c1net [JNum.fin 1] [JNum.fin 0] (JNum.fin 1)) 1 0 j)
        (JNum.fin 0)) *
      (qTable (actAt c1net 1)).deriv
        (vAt (trainNet qTable c1net [JNum.fin 1] [JNum.fin 0] (JNum.fin 1)) 1 0) :=
  ⟨by decide, by decide, by decide, by decide,
   (claim_C1_amended qTable c1net [JNum.fin 1] [JNum.fin 0] (JNum.fin 1)
     (by decide) (by decide) (by decide) (by decide)).2 1 (by decide) (by decide)
     0 (by decide)⟩
